import Mathlib

/-!
Verification development for the `playwright-impact` test-impact analyzer.

The JavaScript source is shallowly embedded: pure string/list logic is
translated directly; external collaborators (git enumeration, the file
system, the TypeScript parser and printer, the JS regular-expression
engine) are represented as explicit input data carried in environment
records, exactly as the specification's §1 prescribes ("the core consumes
a pre-parsed change-set", "a parser that yields abstract syntax trees").

JS `Map` objects are modelled as association lists with `Map.set`
update-in-place-or-append semantics, JS `Set` objects as duplicate-free
lists with insertion order, and `Array.prototype.sort` with a
`localeCompare` comparator as an insertion sort over code-point order
(the two agree on the ASCII paths exercised here).
-/

namespace PlaywrightImpact

/-! ## Generic list and string machinery -/

/-- Code-point comparison of character lists, modelling the effect of the
JS `a.localeCompare(b)` comparator on ASCII strings. -/
def charListLe : List Char → List Char → Bool
  | [], _ => true
  | _ :: _, [] => false
  | a :: as, b :: bs => if a < b then true else if b < a then false else charListLe as bs

/-- String comparison used by every `.sort((a, b) => a.localeCompare(b))` call. -/
def sLe (a b : String) : Bool := charListLe a.data b.data

theorem charListLe_total : ∀ as bs, charListLe as bs = true ∨ charListLe bs as = true := by
  intro as
  induction as with
  | nil => intro bs; left; rfl
  | cons a as ih =>
    intro bs
    cases bs with
    | nil => right; rfl
    | cons b bs =>
      simp only [charListLe]
      rcases lt_trichotomy a b with h | h | h
      · left; simp [h]
      · subst h; simpa using ih bs
      · right; simp [h, lt_asymm h]

theorem charListLe_trans : ∀ as bs cs, charListLe as bs = true → charListLe bs cs = true →
    charListLe as cs = true := by
  intro as
  induction as with
  | nil => intros; rfl
  | cons a as ih =>
    intro bs cs h1 h2
    cases bs with
    | nil => simp [charListLe] at h1
    | cons b bs =>
      cases cs with
      | nil => simp [charListLe] at h2
      | cons c cs =>
        by_cases hab : a < b
        · by_cases hbc : b < c
          · simp [charListLe, lt_trans hab hbc]
          · by_cases hcb : c < b
            · simp [charListLe, hbc, hcb] at h2
            · have hb : b = c := le_antisymm (not_lt.1 hcb) (not_lt.1 hbc)
              subst hb
              simp [charListLe, hab]
        · by_cases hba : b < a
          · simp [charListLe, hab, hba] at h1
          · have hab' : a = b := le_antisymm (not_lt.1 hba) (not_lt.1 hab)
            subst hab'
            simp only [charListLe, lt_irrefl, if_false] at h1
            by_cases hac : a < c
            · simp [charListLe, hac]
            · by_cases hca : c < a
              · simp [charListLe, hac, hca] at h2
              · simp only [charListLe, hac, hca, if_false] at h2 ⊢
                exact ih bs cs h1 h2

theorem sLe_total (a b : String) : sLe a b = true ∨ sLe b a = true :=
  charListLe_total a.data b.data

theorem sLe_trans {a b c : String} (h1 : sLe a b = true) (h2 : sLe b c = true) :
    sLe a c = true :=
  charListLe_trans a.data b.data c.data h1 h2

/-- Insertion into a sorted list, the auxiliary of `insSort`. -/
def orderedInsert (le : α → α → Bool) (a : α) : List α → List α
  | [] => [a]
  | b :: l => if le a b then a :: b :: l else b :: orderedInsert le a l

/-- Insertion sort; models `Array.prototype.sort` with a total comparator
(the sources only sort lists whose sort keys are pairwise distinct, so the
sorted output is unique and the choice of stable algorithm is immaterial). -/
def insSort (le : α → α → Bool) : List α → List α
  | [] => []
  | a :: l => orderedInsert le a (insSort le l)

theorem orderedInsert_perm (le : α → α → Bool) (a : α) :
    ∀ l : List α, (orderedInsert le a l).Perm (a :: l) := by
  intro l
  induction l with
  | nil => simp [orderedInsert]
  | cons b l ih =>
    by_cases h : le a b = true
    · simp [orderedInsert, h]
    · simp only [orderedInsert, h, if_false]
      exact ((ih.cons b).trans (List.Perm.swap a b l))

theorem insSort_perm (le : α → α → Bool) : ∀ l : List α, (insSort le l).Perm l := by
  intro l
  induction l with
  | nil => simp [insSort]
  | cons a l ih =>
    exact (orderedInsert_perm le a (insSort le l)).trans (ih.cons a)

theorem mem_insSort (le : α → α → Bool) (l : List α) (x : α) :
    x ∈ insSort le l ↔ x ∈ l :=
  (insSort_perm le l).mem_iff

theorem length_insSort (le : α → α → Bool) (l : List α) :
    (insSort le l).length = l.length :=
  (insSort_perm le l).length_eq

/-- Sortedness predicate for a boolean comparator. -/
def SortedBy (le : α → α → Bool) (l : List α) : Prop :=
  l.Pairwise (fun a b => le a b = true)

theorem sortedBy_orderedInsert (le : α → α → Bool)
    (htotal : ∀ a b, le a b = true ∨ le b a = true)
    (htrans : ∀ a b c, le a b = true → le b c = true → le a c = true) (a : α) :
    ∀ l : List α, SortedBy le l → SortedBy le (orderedInsert le a l) := by
  intro l
  induction l with
  | nil => intro _; simp [orderedInsert, SortedBy]
  | cons b l ih =>
    intro hs
    rw [SortedBy, List.pairwise_cons] at hs
    by_cases h : le a b = true
    · simp only [orderedInsert, h, if_true]
      refine List.Pairwise.cons ?_ (List.Pairwise.cons hs.1 hs.2)
      intro y hy
      rcases List.mem_cons.1 hy with rfl | hy
      · exact h
      · exact htrans a b y h (hs.1 y hy)
    · simp only [orderedInsert, h, if_false]
      refine List.Pairwise.cons ?_ (ih hs.2)
      intro y hy
      have hy' := (orderedInsert_perm le a l).mem_iff.1 hy
      rcases List.mem_cons.1 hy' with heq | hy'
      · rw [heq]
        rcases htotal a b with h' | h'
        · exact absurd h' h
        · exact h'
      · exact hs.1 y hy'

theorem sortedBy_insSort (le : α → α → Bool)
    (htotal : ∀ a b, le a b = true ∨ le b a = true)
    (htrans : ∀ a b c, le a b = true → le b c = true → le a c = true) :
    ∀ l : List α, SortedBy le (insSort le l) := by
  intro l
  induction l with
  | nil => exact List.Pairwise.nil
  | cons a l ih => exact sortedBy_orderedInsert le htotal htrans a _ ih

theorem nodup_insSort [DecidableEq α] (le : α → α → Bool) (l : List α) (h : l.Nodup) :
    (insSort le l).Nodup :=
  (insSort_perm le l).nodup_iff.2 h

/-- `Array.from(new Set(list))`: keep the first occurrence of each element. -/
def dedupAux [DecidableEq α] (seen : List α) : List α → List α
  | [] => []
  | x :: xs => if x ∈ seen then dedupAux seen xs else x :: dedupAux (x :: seen) xs

def dedupKeepFirst [DecidableEq α] (l : List α) : List α := dedupAux [] l

theorem mem_dedupAux [DecidableEq α] (seen : List α) (l : List α) (x : α) :
    x ∈ dedupAux seen l ↔ x ∈ l ∧ x ∉ seen := by
  induction l generalizing seen with
  | nil => simp [dedupAux]
  | cons a l ih =>
    by_cases h : a ∈ seen
    · rw [dedupAux, if_pos h, ih]
      constructor
      · rintro ⟨hx, hns⟩
        exact ⟨List.mem_cons_of_mem a hx, hns⟩
      · rintro ⟨hx, hns⟩
        rcases List.mem_cons.1 hx with heq | hx
        · exact absurd (heq ▸ h) hns
        · exact ⟨hx, hns⟩
    · rw [dedupAux, if_neg h]
      constructor
      · intro hmem
        rcases List.mem_cons.1 hmem with heq | hmem
        · exact ⟨heq ▸ List.mem_cons_self _ _, heq ▸ h⟩
        · obtain ⟨hx, hns⟩ := (ih _).1 hmem
          exact ⟨List.mem_cons_of_mem a hx, fun hc => hns (List.mem_cons_of_mem a hc)⟩
      · rintro ⟨hx, hns⟩
        rcases List.mem_cons.1 hx with heq | hx
        · exact heq ▸ List.mem_cons_self _ _
        · by_cases hxa : x = a
          · exact hxa ▸ List.mem_cons_self _ _
          · refine List.mem_cons_of_mem a ((ih _).2 ⟨hx, ?_⟩)
            intro hc
            rcases List.mem_cons.1 hc with h' | h'
            · exact hxa h'
            · exact hns h'

theorem nodup_dedupAux [DecidableEq α] (seen : List α) (l : List α) :
    (dedupAux seen l).Nodup := by
  induction l generalizing seen with
  | nil => exact List.nodup_nil
  | cons a l ih =>
    by_cases h : a ∈ seen
    · simpa [dedupAux, h] using ih seen
    · simp only [dedupAux, h, if_false]
      refine List.Nodup.cons ?_ (ih (a :: seen))
      intro hc
      exact ((mem_dedupAux _ _ _).1 hc).2 (List.mem_cons_self a seen)

theorem mem_dedupKeepFirst [DecidableEq α] (l : List α) (x : α) :
    x ∈ dedupKeepFirst l ↔ x ∈ l := by
  simp [dedupKeepFirst, mem_dedupAux]

theorem nodup_dedupKeepFirst [DecidableEq α] (l : List α) : (dedupKeepFirst l).Nodup :=
  nodup_dedupAux [] l

/-- `Set.add` on a JS set represented as a duplicate-free list in insertion order. -/
def insertSet [DecidableEq α] (x : α) (s : List α) : List α :=
  if x ∈ s then s else s ++ [x]

theorem mem_insertSet [DecidableEq α] (x y : α) (s : List α) :
    y ∈ insertSet x s ↔ y ∈ s ∨ y = x := by
  unfold insertSet
  by_cases h : x ∈ s
  · simp only [h, if_true]
    constructor
    · exact Or.inl
    · rintro (hy | rfl)
      · exact hy
      · exact h
  · simp [h]

theorem mem_insertSet_self [DecidableEq α] (x : α) (s : List α) : x ∈ insertSet x s :=
  (mem_insertSet x x s).2 (Or.inr rfl)

theorem mem_insertSet_of_mem [DecidableEq α] {y : α} (x : α) {s : List α} (h : y ∈ s) :
    y ∈ insertSet x s :=
  (mem_insertSet x y s).2 (Or.inl h)

/-! ### Association lists modelling JS `Map` (`set` updates in place or appends) -/

/-- `Map.prototype.get`. -/
def alookup [DecidableEq κ] : List (κ × ν) → κ → Option ν
  | [], _ => none
  | (k', v) :: m, k => if k = k' then some v else alookup m k

/-- `Map.prototype.set`: update an existing key in place, otherwise append. -/
def aset [DecidableEq κ] : List (κ × ν) → κ → ν → List (κ × ν)
  | [], k, v => [(k, v)]
  | (k', v') :: m, k, v => if k = k' then (k, v) :: m else (k', v') :: aset m k v

/-- `Array.from(map.values())` in insertion order. -/
def avalues (m : List (κ × ν)) : List ν := m.map Prod.snd

/-- `Array.from(map.keys())` in insertion order. -/
def akeys (m : List (κ × ν)) : List κ := m.map Prod.fst

theorem alookup_aset_self [DecidableEq κ] (m : List (κ × ν)) (k : κ) (v : ν) :
    alookup (aset m k v) k = some v := by
  induction m with
  | nil => simp [aset, alookup]
  | cons p m ih =>
    obtain ⟨k', v'⟩ := p
    by_cases h : k = k'
    · simp [aset, alookup, h]
    · simp [aset, alookup, h, ih]

theorem alookup_aset_ne [DecidableEq κ] (m : List (κ × ν)) (k k' : κ) (v : ν)
    (h : k' ≠ k) : alookup (aset m k v) k' = alookup m k' := by
  induction m with
  | nil => simp [aset, alookup, h]
  | cons p m ih =>
    obtain ⟨k0, v0⟩ := p
    by_cases h0 : k = k0
    · subst h0
      simp [aset, alookup, h]
    · by_cases h1 : k' = k0
      · simp [aset, alookup, h0, h1]
      · simp [aset, alookup, h0, h1, ih]

theorem akeys_aset [DecidableEq κ] (m : List (κ × ν)) (k : κ) (v : ν) :
    akeys (aset m k v) = if k ∈ akeys m then akeys m else akeys m ++ [k] := by
  induction m with
  | nil => simp [aset, akeys]
  | cons p m ih =>
    obtain ⟨k0, v0⟩ := p
    by_cases h : k = k0
    · subst h
      simp [aset, akeys]
    · simp only [aset, h, if_false, akeys, List.map_cons] at ih ⊢
      rw [ih]
      by_cases hm : k ∈ m.map Prod.fst
      · simp [hm, h]
      · simp [hm, h]

theorem nodup_akeys_aset [DecidableEq κ] (m : List (κ × ν)) (k : κ) (v : ν)
    (h : (akeys m).Nodup) : (akeys (aset m k v)).Nodup := by
  rw [akeys_aset]
  by_cases hm : k ∈ akeys m
  · simpa [hm]
  · simp only [hm, if_false]
    simpa [List.nodup_append] using ⟨h, fun hc => hm hc⟩

theorem mem_akeys_iff_alookup [DecidableEq κ] (m : List (κ × ν)) (k : κ) :
    k ∈ akeys m ↔ (alookup m k).isSome := by
  induction m with
  | nil => simp [akeys, alookup]
  | cons p m ih =>
    obtain ⟨k0, v0⟩ := p
    by_cases h : k = k0
    · simp [akeys, alookup, h]
    · simp only [akeys, List.map_cons, List.mem_cons, alookup, h, if_false]
      simp only [akeys] at ih
      constructor
      · rintro (h' | h')
        · exact h'.elim
        · exact ih.1 h'
      · intro h'
        exact Or.inr (ih.2 h')

theorem alookup_mem_avalues [DecidableEq κ] (m : List (κ × ν)) (k : κ) (v : ν)
    (h : alookup m k = some v) : v ∈ avalues m := by
  induction m with
  | nil => simp [alookup] at h
  | cons p m ih =>
    obtain ⟨k0, v0⟩ := p
    by_cases hk : k = k0
    · simp only [alookup, hk, if_true, Option.some.injEq] at h
      simp [avalues, h]
    · simp only [alookup, hk, if_false] at h
      have hv := ih h
      simp only [avalues, List.map_cons, List.mem_cons]
      exact Or.inr (by simpa [avalues] using hv)

theorem mem_avalues_exists_alookup [DecidableEq κ] (m : List (κ × ν))
    (hnd : (akeys m).Nodup) (v : ν) (h : v ∈ avalues m) :
    ∃ k, alookup m k = some v := by
  induction m with
  | nil => simp [avalues] at h
  | cons p m ih =>
    obtain ⟨k0, v0⟩ := p
    simp only [avalues, List.map_cons, List.mem_cons] at h
    simp only [akeys, List.map_cons, List.nodup_cons] at hnd
    rcases h with rfl | h
    · exact ⟨k0, by simp [alookup]⟩
    · obtain ⟨k, hk⟩ := ih hnd.2 h
      refine ⟨k, ?_⟩
      have : k ≠ k0 := by
        intro hc
        subst hc
        exact hnd.1 ((mem_akeys_iff_alookup m k).2 (by simp [hk]))
      simp [alookup, this, hk]

/-! ### String utilities

The JS string methods used by the sources are re-implemented structurally
(the Lean core versions are defined by well-founded recursion over byte
positions and do not reduce inside the kernel). -/

/-- Characters matched by the JS regexp class `\s` (ASCII portion). -/
def isSpaceChar (c : Char) : Bool :=
  c = ' ' ∨ c = '\t' ∨ c = '\n' ∨ c = '\r' ∨ c = '\x0b' ∨ c = '\x0c'

/-- `text.replace(/\s+/g, ' ')`: each maximal whitespace run becomes one space. -/
def collapseWsAux : Bool → List Char → List Char
  | _, [] => []
  | prevSpace, c :: rest =>
    if isSpaceChar c then
      if prevSpace then collapseWsAux true rest
      else ' ' :: collapseWsAux true rest
    else c :: collapseWsAux false rest

/-- `String.prototype.trim` over a character list. -/
def trimChars (l : List Char) : List Char :=
  ((l.dropWhile (isSpaceChar ·)).reverse.dropWhile (isSpaceChar ·)).reverse

/-- `file-and-git-helpers.js` (method-impact section): `normalizeText`,
`String(text || '').replace(/\s+/g, ' ').trim()`. -/
def normalizeText (s : String) : String :=
  String.mk (trimChars (collapseWsAux false s.data))

/-- ASCII `String.prototype.toUpperCase` (statuses are single Latin letters). -/
def upperChar (c : Char) : Char :=
  if 'a' ≤ c ∧ c ≤ 'z' then Char.ofNat (c.toNat - 32) else c

def strToUpper (s : String) : String := String.mk (s.data.map upperChar)

/-- ASCII `String.prototype.toLowerCase`. -/
def lowerChar (c : Char) : Char :=
  if 'A' ≤ c ∧ c ≤ 'Z' then Char.ofNat (c.toNat + 32) else c

def strToLower (s : String) : String := String.mk (s.data.map lowerChar)

def listPrefixOf [DecidableEq α] : List α → List α → Bool
  | [], _ => true
  | _ :: _, [] => false
  | a :: as, b :: bs => if a = b then listPrefixOf as bs else false

/-- `String.prototype.startsWith`. -/
def strStartsWith (s p : String) : Bool := listPrefixOf p.data s.data

/-- `String.prototype.endsWith`. -/
def strEndsWith (s p : String) : Bool := listPrefixOf p.data.reverse s.data.reverse

def strTrim (s : String) : String := String.mk (trimChars s.data)

/-- `path.join(a, b)` for a repo root and a relative path (the sources only
join well-formed segments, so plain separator insertion is faithful). -/
def joinPath (a b : String) : String := a ++ "/" ++ b

/-- `global-watch-helpers.js`: `normalizePath`, backslashes become slashes. -/
def normalizePathStr (s : String) : String :=
  String.mk (s.data.map (fun c => if c = '\\' then '/' else c))

/-- `.replace(/^\.\//, '')`: strip one leading `./`. -/
def stripDotSlash (s : String) : String :=
  if strStartsWith s "./" then String.mk (s.data.drop 2) else s

/-- `path.relative(repoRoot, abs)` for paths below the root, as produced by
the closure construction. -/
def relativize (repoRoot abs : String) : String :=
  if strStartsWith abs (repoRoot ++ "/") then
    String.mk (abs.data.drop (repoRoot.data.length + 1))
  else abs

/-- Characters of the basename (after the last `/`). -/
def basenameChars (p : String) : List Char :=
  (p.data.reverse.takeWhile (· ≠ '/')).reverse

/-- Suffix beginning at the last `.` of a character list, if any. -/
def lastDotSuffix : List Char → Option (List Char)
  | [] => none
  | c :: rest =>
    match lastDotSuffix rest with
    | some e => some e
    | none => if c = '.' then some ('.' :: rest) else none

/-- `path.extname`: extension of the basename; a dot in position zero of the
basename does not open an extension. -/
def extname (p : String) : String :=
  match basenameChars p with
  | [] => ""
  | _ :: rest =>
    match lastDotSuffix rest with
    | some e => String.mk e
    | none => ""

/-- `Array.prototype.join(sep)`. -/
def joinWith (sep : String) : List String → String
  | [] => ""
  | [x] => x
  | x :: xs => x ++ sep ++ joinWith sep xs

/-- JS truthiness of an optional string (`null`, `undefined` and `''` are falsy). -/
def truthyOpt : Option String → Option String
  | some s => if s = "" then none else some s
  | none => none

def optTruthy (o : Option String) : Bool := (truthyOpt o).isSome

/-- `a?.f || b?.f || ''` over optional string projections. -/
def firstTruthy (a b : Option String) : String :=
  match truthyOpt a with
  | some s => s
  | none => match truthyOpt b with
    | some s => s
    | none => ""

/-! ## Change-Set Normalizer (`src/modules/file-and-git-helpers.js`) -/

/-- A change entry as produced by `parseChangedEntryLine` /
`getUntrackedSourceEntries`. -/
structure Entry where
  status : String
  oldPath : Option String
  newPath : Option String
  effectivePath : String
  rawStatus : String
  deriving DecidableEq, Repr

/-- `STATUS_PRIORITY` with the `|| 0` fallback for unknown statuses. -/
def statusPriority (s : String) : Nat :=
  if s = "D" then 4 else if s = "R" then 3 else if s = "M" then 2 else if s = "A" then 1 else 0

/-- `entry.oldPath || entry.effectivePath` (and the `newPath` analogue). -/
def orEffective (o : Option String) (eff : String) : String :=
  match truthyOpt o with
  | some s => s
  | none => eff

/-- `normalizeEntryStatus`: canonical statuses pass through, `C` becomes an
add, `T`/`U` and anything unknown become modifies; each fallback pushes one
warning. Returns the normalized entry together with the warnings emitted. -/
def normalizeEntryStatus (entry : Entry) : Entry × List String :=
  let status := strToUpper entry.status
  if status = "A" ∨ status = "M" ∨ status = "D" ∨ status = "R" then
    ({ entry with status := status }, [])
  else if status = "C" then
    let raw := if entry.rawStatus = "" then "C" else entry.rawStatus
    ({ entry with status := "A", oldPath := none },
      [s!"Status fallback: {raw} mapped to A for {entry.effectivePath}"])
  else if status = "T" ∨ status = "U" then
    let raw := if entry.rawStatus = "" then status else entry.rawStatus
    let e := { entry with
      status := "M"
      oldPath := some (orEffective entry.oldPath entry.effectivePath)
      newPath := some (orEffective entry.newPath entry.effectivePath) }
    (e, [s!"Status fallback: {raw} mapped to M for {entry.effectivePath}"])
  else
    let raw := if entry.rawStatus = "" then (if status = "" then "unknown" else status)
      else entry.rawStatus
    let e := { entry with
      status := "M"
      oldPath := some (orEffective entry.oldPath entry.effectivePath)
      newPath := some (orEffective entry.newPath entry.effectivePath) }
    (e, [s!"Status fallback: {raw} mapped to M for {entry.effectivePath}"])

/-- `mergeByPriority`: precedence `D > R > M > A`; on a tie an incoming
Renamed entry carrying both paths wins, otherwise the existing entry stays. -/
def mergeByPriority (existing : Option Entry) (incoming : Entry) : Entry :=
  match existing with
  | none => incoming
  | some e =>
    let currentPriority := statusPriority e.status
    let incomingPriority := statusPriority incoming.status
    if incomingPriority > currentPriority then incoming
    else if incomingPriority < currentPriority then e
    else if incoming.status = "R" ∧ optTruthy incoming.oldPath ∧ optTruthy incoming.newPath then
      incoming
    else e

/-- `isValidExtension`. -/
def isValidExtension (filePath : String) (fileExtensions : List String) : Bool :=
  extname filePath ∈ fileExtensions

/-- `getUntrackedPaths` sorts the collaborator-provided listing. -/
def getUntrackedPaths (untrackedRaw : List String) : List String :=
  insSort sLe untrackedRaw

/-- `getUntrackedSpecPaths`. -/
def getUntrackedSpecPaths (untrackedRaw : List String) (changedSpecPrefix : String)
    (fileExtensions : List String) : List String :=
  ((getUntrackedPaths untrackedRaw).filter
      (fun p => strStartsWith p changedSpecPrefix)).filter
    (fun p => fileExtensions.any (fun ext => strEndsWith p (".spec" ++ ext)))

/-- `getUntrackedSourceEntries`. -/
def getUntrackedSourceEntries (untrackedRaw : List String)
    (isRelevantPomPath : String → Bool) (fileExtensions : List String) : List Entry :=
  (((getUntrackedPaths untrackedRaw).filter
        (fun p => isValidExtension p fileExtensions)).filter
      isRelevantPomPath).map
    (fun p => {
      status := "A", oldPath := none, newPath := some p,
      effectivePath := p, rawStatus := "A (untracked source)" })

/-- State of the deduplication loop in `getChangedEntries`. -/
structure MergeState where
  warnings : List String
  statusFallbackHits : Nat
  mergedByPath : List (String × Entry)

/-- One iteration of `for (const entry of combined)`. -/
def mergeStep (st : MergeState) (entry : Entry) : MergeState :=
  let (normalized, newWarnings) := normalizeEntryStatus entry
  let warnings := st.warnings ++ newWarnings
  if normalized.status = "A" ∨ normalized.status = "M" ∨ normalized.status = "D" ∨
      normalized.status = "R" then
    let hits := if normalized.status ≠ entry.status then st.statusFallbackHits + 1
      else st.statusFallbackHits
    let existing := alookup st.mergedByPath normalized.effectivePath
    { warnings := warnings, statusFallbackHits := hits,
      mergedByPath := aset st.mergedByPath normalized.effectivePath
        (mergeByPriority existing normalized) }
  else
    { st with warnings := warnings }

structure ChangedEntriesResult where
  entries : List Entry
  warnings : List String
  statusFallbackHits : Nat
  fromBaseHead : Nat
  fromWorkingTree : Nat
  fromUntracked : Nat

/-- The `combined` list of `getChangedEntries`: base-vs-head entries,
working-tree entries, and untracked source entries, in push order. -/
def combinedChangeSources (baseRef : Option String) (includeWorkingTreeWithBase : Bool)
    (baseHeadDiff workingTreeDiff : List Entry) (untrackedRaw : List String)
    (isRelevantPomPath : String → Bool) (fileExtensions : List String) : List Entry :=
  let baseHeadEntries := if optTruthy baseRef then baseHeadDiff else []
  let workingTreeEntries := if ¬ optTruthy baseRef ∨ includeWorkingTreeWithBase then
    workingTreeDiff else []
  let combined0 := baseHeadEntries ++ workingTreeEntries
  -- `if (!baseRef && combined.length === 0) combined.push(...workingTreeEntries)`
  let combined1 := if ¬ optTruthy baseRef ∧ combined0 = [] then
    combined0 ++ workingTreeEntries else combined0
  combined1 ++ getUntrackedSourceEntries untrackedRaw isRelevantPomPath fileExtensions

/-- `getChangedEntries`: combine the three sources, normalize and merge per
effective path, and sort the surviving entries. The two `git diff`
invocations are external collaborators and enter as pre-parsed entry lists. -/
def getChangedEntries (baseRef : Option String) (includeWorkingTreeWithBase : Bool)
    (baseHeadDiff workingTreeDiff : List Entry) (untrackedRaw : List String)
    (isRelevantPomPath : String → Bool) (fileExtensions : List String) :
    ChangedEntriesResult :=
  let baseHeadEntries := if optTruthy baseRef then baseHeadDiff else []
  let workingTreeEntries := if ¬ optTruthy baseRef ∨ includeWorkingTreeWithBase then
    workingTreeDiff else []
  let untracked := getUntrackedSourceEntries untrackedRaw isRelevantPomPath fileExtensions
  let combined := combinedChangeSources baseRef includeWorkingTreeWithBase baseHeadDiff
    workingTreeDiff untrackedRaw isRelevantPomPath fileExtensions
  let st := combined.foldl mergeStep ⟨[], 0, []⟩
  { entries := insSort (fun a b => sLe a.effectivePath b.effectivePath)
      (avalues st.mergedByPath)
    warnings := st.warnings
    statusFallbackHits := st.statusFallbackHits
    fromBaseHead := baseHeadEntries.length
    fromWorkingTree := workingTreeEntries.length
    fromUntracked := untracked.length }

/-! ## Global-Watch Evaluator (`src/modules/global-watch-helpers.js`) -/

/-- `DEFAULT_GLOBAL_WATCH_PATTERNS`. -/
def defaultGlobalWatchPatterns : List String :=
  ["playwright.stem.config.ts", "playwright.mn.config.ts", "playwright.e2e.config.ts",
   "src/global-setup.ts", "src/global-setup-stem.ts", "src/global-setup-mn.ts",
   "src/fixtures/**", "src/setup/**", "src/config/config.ts", "src/config/urls.ts",
   "src/reporters/**", "src/scripts/verify-*.js", "src/api/mocks/**"]

/-- All suffixes of a character list: what remains after `.*` consumes an
arbitrary prefix. -/
def listSuffixes : List Char → List (List Char)
  | [] => [[]]
  | c :: rest => (c :: rest) :: listSuffixes rest

/-- Suffixes reachable by consuming a (possibly empty) run of non-`/`
characters: what remains after `[^/]*`. -/
def segSuffixes : List Char → List (List Char)
  | [] => [[]]
  | c :: rest => (c :: rest) :: (if c = '/' then [] else segSuffixes rest)

/-- Matching semantics of the regex produced by `globToRegex`: `**` compiles
to `.*`, a single `*` to `[^/]*`, every other character is escaped and
matches literally; the whole pattern is anchored at both ends. -/
def globMatch : List Char → List Char → Bool
  | [], s => s.isEmpty
  | '*' :: '*' :: ps, s => (listSuffixes s).any (fun t => globMatch ps t)
  | '*' :: ps, s => (segSuffixes s).any (fun t => globMatch ps t)
  | _ :: _, [] => false
  | p :: ps, c :: rest => if p = c then globMatch ps rest else false

/-- `globToRegex(pattern).test(path)` after the caller's
`normalizePath(...).replace(/^\.\//, '')` on the pattern. -/
def globTest (pattern path : String) : Bool :=
  globMatch (stripDotSlash (normalizePathStr pattern)).data path.data

structure GlobalWatchResult where
  matchedPaths : List String
  resolvedFiles : List String
  deriving Repr

/-- Candidate paths of an entry, `[effectivePath, oldPath, newPath].filter(Boolean)`. -/
def entryCandidates (e : Entry) : List String :=
  ([some e.effectivePath, e.oldPath, e.newPath]).filterMap truthyOpt

/-- `evaluateGlobalWatch`. The transitive import closure is produced by
file-system traversal and TypeScript parsing (external collaborators), so it
enters as the pre-resolved absolute file set `closureAbs`; the pure pattern
matching and change-set intersection are modelled in full. -/
def evaluateGlobalWatch (repoRoot : String) (changedEntries : List Entry)
    (patterns : List String) (closureAbs : List String) : GlobalWatchResult :=
  let effectivePatterns := if patterns ≠ [] then patterns else defaultGlobalWatchPatterns
  let matchedList := changedEntries.flatMap (fun e =>
    (entryCandidates e).filterMap (fun candidate =>
      let relative := stripDotSlash (normalizePathStr candidate)
      let absolute := joinPath repoRoot relative
      let byPattern := effectivePatterns.any (fun p => globTest p relative)
      let byClosure := absolute ∈ closureAbs
      if byPattern || byClosure then some relative else none))
  { matchedPaths := insSort sLe (dedupKeepFirst matchedList)
    resolvedFiles := insSort sLe
      (closureAbs.map (fun f => normalizePathStr (relativize repoRoot f))) }

/-! ## Semantic Change Detector (`src/modules/file-and-git-helpers.js`,
method-impact section)

The TypeScript parser and the comment-removing printer are external
collaborators: a parsed revision enters as a `SourceFile` whose statements
and members carry the printer's output text for each node. `normalizeText`
(whitespace collapse) is repository code and is applied on top, exactly as
`getFingerprintForNode` does. -/

/-- A class member as classified by `getMemberIdentity` and consumed by the
`parseFileModel` member loop. `name = none` stands for a member whose name
is neither an identifier nor a string literal. Texts are printer output. -/
inductive MemberDecl where
  | methodD (name : Option String) (hasBody : Bool) (text : String)
  | ctorD (assigns : List (String × String)) (text : String)
  | getAcc (name : Option String) (text : String)
  | setAcc (name : Option String) (text : String)
  | propD (name : Option String) (callableInit : Bool) (typeRef : Option String) (text : String)
  deriving DecidableEq, Repr

/-- A top-level statement with the printer text of the node. -/
inductive Statement where
  | classDecl (name : Option String) (members : List MemberDecl) (text : String)
  | interfaceDecl (text : String)
  | typeAliasDecl (text : String)
  | importDecl (hasImportClause : Bool) (typeOnly : Bool) (text : String)
  | exportDecl (typeOnly : Bool) (text : String)
  | otherStmt (text : String)
  deriving DecidableEq, Repr

/-- Printer text of a statement node. -/
def Statement.text : Statement → String
  | .classDecl _ _ t => t
  | .interfaceDecl t => t
  | .typeAliasDecl t => t
  | .importDecl _ _ t => t
  | .exportDecl _ t => t
  | .otherStmt t => t

/-- A parsed revision: the raw content (used only by the byte-equality
short-circuit) together with its statements. -/
structure SourceFile where
  rawText : String
  statements : List Statement
  deriving DecidableEq, Repr

/-- `isRuntimeStatement`. -/
def isRuntimeStatement : Statement → Bool
  | .classDecl _ _ _ => false
  | .interfaceDecl _ => false
  | .typeAliasDecl _ => false
  | .importDecl hasImportClause typeOnly _ => !hasImportClause || !typeOnly
  | .exportDecl typeOnly _ => !typeOnly
  | .otherStmt _ => true

/-- `getMemberIdentity`: `(identity type, member name)`; `none` when the
member has no usable name. -/
def getMemberIdentity : MemberDecl → Option (String × String)
  | .ctorD _ _ => some ("ctor", "constructor")
  | .methodD name _ _ =>
    match truthyOpt name with
    | some n => some ("call", n)
    | none => none
  | .getAcc name _ =>
    match truthyOpt name with
    | some n => some ("get", n)
    | none => none
  | .setAcc name _ =>
    match truthyOpt name with
    | some n => some ("set", n)
    | none => none
  | .propD name callableInit _ _ =>
    match truthyOpt name with
    | some n => if callableInit then some ("call", n) else some ("field", n)
    | none => none

/-- `MemberModel`, with the printer's texts in place of AST nodes. -/
structure MemberModel where
  className : String
  memberName : String
  identityType : String
  overloadTexts : List String
  implText : Option String
  callable : Bool
  deriving DecidableEq, Repr

/-- `ClassModel`; `callableMemberNames` is the key set of
`callableMembersByName` (its values alias `membersByIdentity` entries). -/
structure ClassModel where
  membersByIdentity : List (String × MemberModel)
  callableMemberNames : List String
  composedFieldClassByName : List (String × String)
  deriving DecidableEq, Repr

def emptyClassModel : ClassModel := ⟨[], [], []⟩

def newMemberModel (className name ty : String) : MemberModel :=
  { className := className, memberName := name, identityType := ty,
    overloadTexts := [], implText := none,
    callable := ty = "call" ∨ ty = "ctor" ∨ ty = "get" ∨ ty = "set" }

/-- `ensureMemberModel` followed by the per-kind update in the
`parseFileModel` member loop. -/
def addMemberToClassModel (className : String) (cm : ClassModel) (member : MemberDecl) :
    ClassModel :=
  match getMemberIdentity member with
  | none => cm
  | some (ty, nm) =>
    let identityKey := ty ++ ":" ++ nm
    let isNew := (alookup cm.membersByIdentity identityKey).isNone
    let mm := (alookup cm.membersByIdentity identityKey).getD (newMemberModel className nm ty)
    let callableNames := if isNew ∧ mm.callable then insertSet nm cm.callableMemberNames
      else cm.callableMemberNames
    match member with
    | .methodD _ hasBody text =>
      let mm' := if hasBody then { mm with implText := some text }
        else { mm with overloadTexts := mm.overloadTexts ++ [text] }
      { cm with
        membersByIdentity := aset cm.membersByIdentity identityKey mm'
        callableMemberNames := callableNames }
    | .ctorD assigns text =>
      let mm' := { mm with implText := some text }
      { membersByIdentity := aset cm.membersByIdentity identityKey mm'
        callableMemberNames := callableNames
        composedFieldClassByName :=
          assigns.foldl (fun acc p => aset acc p.1 p.2) cm.composedFieldClassByName }
    | .getAcc _ text =>
      { cm with
        membersByIdentity := aset cm.membersByIdentity identityKey { mm with implText := some text }
        callableMemberNames := callableNames }
    | .setAcc _ text =>
      { cm with
        membersByIdentity := aset cm.membersByIdentity identityKey { mm with implText := some text }
        callableMemberNames := callableNames }
    | .propD name callableInit typeRef text =>
      let mm' := { mm with implText := some text }
      if callableInit then
        { cm with
          membersByIdentity := aset cm.membersByIdentity identityKey mm'
          callableMemberNames := callableNames }
      else
        let composed := match truthyOpt name, truthyOpt typeRef with
          | some fieldName, some fieldTypeName =>
            aset cm.composedFieldClassByName fieldName fieldTypeName
          | _, _ => cm.composedFieldClassByName
        { membersByIdentity := aset cm.membersByIdentity identityKey mm'
          callableMemberNames := callableNames
          composedFieldClassByName := composed }

structure FileModel where
  runtimeTexts : List String
  classModels : List (String × ClassModel)
  deriving DecidableEq, Repr

/-- The class-model construction loop of `parseFileModel`. -/
def buildClassModels (statements : List Statement) : List (String × ClassModel) :=
  statements.foldl
    (fun acc statement =>
      match statement with
      | .classDecl name members _ =>
        match truthyOpt name with
        | none => acc
        | some className =>
          let cm := (alookup acc className).getD emptyClassModel
          aset acc className (members.foldl (addMemberToClassModel className) cm)
      | _ => acc)
    []

/-- `parseFileModel` on a readable revision (`null` content yields no model). -/
def buildFileModel (sf : SourceFile) : FileModel :=
  { runtimeTexts := (sf.statements.filter isRuntimeStatement).map Statement.text
    classModels := buildClassModels sf.statements }

/-- `getRuntimeFingerprint`. -/
def getRuntimeFingerprint : Option FileModel → String
  | none => ""
  | some fm => joinWith "\n" (fm.runtimeTexts.map normalizeText)

/-- Fingerprint of the implementation node, `''` when absent. -/
def implFingerprint : Option String → String
  | some t => normalizeText t
  | none => ""

/-- `getMemberFingerprint`: overload-signature fingerprints and the
implementation fingerprint, combined. -/
def getMemberFingerprint : Option MemberModel → String
  | none => ""
  | some mm =>
    let overloadFingerprint := joinWith "\n" (mm.overloadTexts.map normalizeText)
    "overloads:" ++ overloadFingerprint ++ "\nimplementation:" ++ implFingerprint mm.implText

/-- `stats` record of `collectChangedMethodsByClass` (`createEmptyStats`). -/
structure SemanticStats where
  statusA : Nat
  statusM : Nat
  statusD : Nat
  statusR : Nat
  semanticChangedMethodsCount : Nat
  topLevelRuntimeChangedFiles : Nat
  impactedMethodsTotal : Nat
  deriving DecidableEq, Repr

def emptySemanticStats : SemanticStats := ⟨0, 0, 0, 0, 0, 0, 0⟩

/-- Accumulator threaded through the detector loops:
`changedMethodsByClass` is a `Map<ClassName, Set<MemberName>>`. -/
structure DetectorAcc where
  changedMethodsByClass : List (String × List String)
  stats : SemanticStats
  deriving DecidableEq, Repr

/-- `addChangedMethod`. -/
def addChangedMethod (acc : List (String × List String)) (className memberName : String) :
    List (String × List String) :=
  if className = "" ∨ memberName = "" then acc
  else aset acc className (insertSet memberName ((alookup acc className).getD []))

/-- `addCallableMembersFromClassModel`. -/
def addCallableMembersFromClassModel (classModel : Option ClassModel) (className : String)
    (acc : List (String × List String)) : List (String × List String) :=
  match classModel with
  | none => acc
  | some cm => cm.callableMemberNames.foldl (fun a n => addChangedMethod a className n) acc

/-- `addAllCallableMembers`. -/
def addAllCallableMembers (parsed : Option FileModel)
    (acc : List (String × List String)) : List (String × List String) :=
  match parsed with
  | none => acc
  | some fm =>
    fm.classModels.foldl
      (fun a p => p.2.callableMemberNames.foldl (fun a' n => addChangedMethod a' p.1 n) a)
      acc

/-- `baseClass?.membersByIdentity.get(identity) || null`. -/
def memberOfClass (c : Option ClassModel) (identity : String) : Option MemberModel :=
  c.bind (fun cm => alookup cm.membersByIdentity identity)

/-- Body of `for (const identity of identities)`: fingerprint comparison and
the callable / non-callable-field branches. -/
def processIdentity (baseClass headClass : Option ClassModel) (identity : String)
    (acc : List (String × List String)) : List (String × List String) :=
  let baseMember := memberOfClass baseClass identity
  let headMember := memberOfClass headClass identity
  let baseFingerprint := getMemberFingerprint baseMember
  let headFingerprint := getMemberFingerprint headMember
  if baseFingerprint = headFingerprint then acc
  else
    let targetClass := firstTruthy (headMember.map (·.className)) (baseMember.map (·.className))
    let targetMember := firstTruthy (headMember.map (·.memberName)) (baseMember.map (·.memberName))
    let isCallable := (headMember.map (·.callable)).getD false ∨
      (baseMember.map (·.callable)).getD false
    let identityType := firstTruthy (headMember.map (·.identityType))
      (baseMember.map (·.identityType))
    if ¬ isCallable then
      if identityType = "field" ∧ targetClass ≠ "" then
        addCallableMembersFromClassModel headClass targetClass
          (addCallableMembersFromClassModel baseClass targetClass acc)
      else acc
    else addChangedMethod acc targetClass targetMember

/-- Union of the member-identity key sets of a class in both revisions, in
JS `Set` insertion order. -/
def identityUnion (baseClass headClass : Option ClassModel) : List String :=
  dedupKeepFirst
    ((baseClass.map (fun c => akeys c.membersByIdentity)).getD [] ++
     (headClass.map (fun c => akeys c.membersByIdentity)).getD [])

/-- Body of `for (const className of classNames)`. -/
def processClass (parsedBase parsedHead : Option FileModel) (className : String)
    (acc : List (String × List String)) : List (String × List String) :=
  let baseClass := parsedBase.bind (fun fm => alookup fm.classModels className)
  let headClass := parsedHead.bind (fun fm => alookup fm.classModels className)
  (identityUnion baseClass headClass).foldl
    (fun a identity => processIdentity baseClass headClass identity a) acc

/-- Union of the class names of both revisions, in insertion order. -/
def classNameUnion (parsedBase parsedHead : Option FileModel) : List String :=
  dedupKeepFirst
    ((parsedBase.map (fun fm => akeys fm.classModels)).getD [] ++
     (parsedHead.map (fun fm => akeys fm.classModels)).getD [])

/-- `stats.changedPomEntriesByStatus[entry.status] += 1` for known statuses. -/
def bumpStatus (stats : SemanticStats) (status : String) : SemanticStats :=
  if status = "A" then { stats with statusA := stats.statusA + 1 }
  else if status = "M" then { stats with statusM := stats.statusM + 1 }
  else if status = "D" then { stats with statusD := stats.statusD + 1 }
  else if status = "R" then { stats with statusR := stats.statusR + 1 }
  else stats

/-- The byte-equality short-circuit guard,
`baseContent !== null && headContent !== null && baseContent === headContent`. -/
def sameRawText : Option SourceFile → Option SourceFile → Bool
  | some b, some h => b.rawText = h.rawText
  | _, _ => false

/-- Body of `for (const entry of changedPomEntries)` in
`collectChangedMethodsByClass`; `contents` is what `readChangeContents`
returned for the entry (base, head). -/
def processChangedEntry (acc : DetectorAcc)
    (entryStatus : String) (contents : Option SourceFile × Option SourceFile) : DetectorAcc :=
  let stats0 := bumpStatus acc.stats entryStatus
  let (baseContent, headContent) := contents
  if sameRawText baseContent headContent then { acc with stats := stats0 }
  else
    let parsedBase := baseContent.map buildFileModel
    let parsedHead := headContent.map buildFileModel
    let baseRuntime := getRuntimeFingerprint parsedBase
    let headRuntime := getRuntimeFingerprint parsedHead
    let (stats1, changed1) :=
      if baseRuntime ≠ headRuntime then
        ({ stats0 with topLevelRuntimeChangedFiles := stats0.topLevelRuntimeChangedFiles + 1 },
         addAllCallableMembers parsedHead
           (addAllCallableMembers parsedBase acc.changedMethodsByClass))
      else (stats0, acc.changedMethodsByClass)
    let changed2 := (classNameUnion parsedBase parsedHead).foldl
      (fun a className => processClass parsedBase parsedHead className a) changed1
    { changedMethodsByClass := changed2, stats := stats1 }

structure DetectorResult where
  changedMethodsByClass : List (String × List String)
  stats : SemanticStats
  deriving DecidableEq, Repr

/-- `collectChangedMethodsByClass`: fold the per-entry processing over the
changed POM entries and total up `semanticChangedMethodsCount`.
`readChange` stands for `readChangeContents` (git + file system). -/
def collectChangedMethodsByClass (changedPomEntries : List Entry)
    (readChange : Entry → Option SourceFile × Option SourceFile) : DetectorResult :=
  let acc := changedPomEntries.foldl
    (fun acc entry => processChangedEntry acc entry.status (readChange entry))
    ⟨[], emptySemanticStats⟩
  let count := (acc.changedMethodsByClass.map (fun p => p.2.length)).sum
  { changedMethodsByClass := acc.changedMethodsByClass
    stats := { acc.stats with semanticChangedMethodsCount := count } }

/-! ## Stage B spec AST (`method-filter-helpers`, `src/unnamed/part_002`)

Spec files are parsed by the external TypeScript parser; the parsed tree
enters as a `Node`. Node lists and optional nodes are sibling-encoded
mutual inductives so that every traversal below is structural and
evaluates inside the kernel. -/

mutual
inductive BindingName where
  | bid (name : String)
  | bobj (elems : BindingElemList)
  | barr (elems : BindingElemList)
  deriving DecidableEq, Repr

inductive BindingElem where
  | belem (propertyName : Option String) (name : BindingName)
  deriving DecidableEq, Repr

inductive BindingElemList where
  | nilB
  | consB (head : BindingElem) (tail : BindingElemList)
  deriving DecidableEq, Repr
end

def BindingElemList.toList : BindingElemList → List BindingElem
  | .nilB => []
  | .consB h t => h :: t.toList

mutual
inductive Node where
  | identN (name : String)
  | strLitN (value : String)
  | thisN
  | propAccess (obj : Node) (name : String)
  | elemAccess (obj : Node) (arg : Node)
  | parenN (e : Node)
  | callN (callee : Node) (args : NodeList)
  | varDecl (binding : BindingName) (init : OptionNode)
  | arrowFn (params : List BindingName) (body : Node)
  | funcExpr (params : List BindingName) (body : Node)
  | funcDecl (params : List BindingName) (body : Node)
  | blockN (stmts : NodeList)
  | otherN (children : NodeList)
  deriving DecidableEq, Repr

inductive NodeList where
  | nilN
  | consN (head : Node) (tail : NodeList)
  deriving DecidableEq, Repr

inductive OptionNode where
  | noneN
  | someN (n : Node)
  deriving DecidableEq, Repr
end

def NodeList.ofList : List Node → NodeList
  | [] => .nilN
  | n :: rest => .consN n (NodeList.ofList rest)

/-- `getRootIdentifierName`: walk `expression` through property accesses,
element accesses and parentheses down to an identifier. -/
def getRootIdentifierName : Node → Option String
  | .identN n => some n
  | .propAccess obj _ => getRootIdentifierName obj
  | .elemAccess obj _ => getRootIdentifierName obj
  | .parenN e => getRootIdentifierName e
  | _ => none

/-- `getAccessChainDepth`: number of property/element accesses at the head. -/
def getAccessChainDepth : Node → Nat
  | .propAccess obj _ => getAccessChainDepth obj + 1
  | .elemAccess obj _ => getAccessChainDepth obj + 1
  | _ => 0

/-- `getLiteralNameFromArgumentExpression` (string literal or
no-substitution template). -/
def getLiteralName : Node → Option String
  | .strLitN v => some v
  | _ => none

/-- `MAX_PRECISE_CHAIN_DEPTH`. -/
def maxPreciseChainDepth : Nat := 2

structure AliasInfo where
  className : String
  methodName : Option String
  isUncertain : Bool
  deriving DecidableEq, Repr

/-- State threaded through `collectImpactedMethodMatchesInSpec`'s visitor. -/
structure MatchState where
  preciseMatches : List String
  uncertainCallSites : Nat
  aliasCalls : List (String × AliasInfo)
  deriving DecidableEq, Repr

/-- `tryRegisterAlias`. -/
def tryRegisterAlias (aliasName : Option String) (className : String)
    (methodName : Option String) (isUncertain : Bool) (s : MatchState) : MatchState :=
  match truthyOpt aliasName with
  | none => s
  | some a =>
    if className = "" then s
    else
      let mn := truthyOpt methodName
      { s with aliasCalls := aset s.aliasCalls a ⟨className, mn, isUncertain || mn.isNone⟩ }

/-- `fixtureVarToClass.get(x)` with JS truthiness. -/
def lookupTruthy (m : List (String × String)) (k : String) : Option String :=
  truthyOpt (alookup m k)

/-- The `ts.isVariableDeclaration(node)` block: alias creation through
`const f = var.<name>` / `const f = var["<name>"]` and through
destructuring `const { <name> } = var`. Every registration passes
`isUncertain = true`. -/
def registerAliasesStep (fv : List (String × String)) (n : Node) (s : MatchState) : MatchState :=
  match n with
  | .varDecl (.bid name) (.someN init) =>
    match init with
    | .propAccess obj m =>
      match getRootIdentifierName obj with
      | none => s
      | some root =>
        match lookupTruthy fv root with
        | none => s
        | some className => tryRegisterAlias (some name) className (some m) true s
    | .elemAccess obj arg =>
      match getRootIdentifierName obj with
      | none => s
      | some root =>
        match lookupTruthy fv root with
        | none => s
        | some className => tryRegisterAlias (some name) className (getLiteralName arg) true s
    | _ => s
  | .varDecl (.bobj elems) (.someN (.identN v)) =>
    match lookupTruthy fv v with
    | none => s
    | some className =>
      elems.toList.foldl
        (fun st e =>
          match e with
          | .belem propertyName nm =>
            let methodName := match truthyOpt propertyName with
              | some p => some p
              | none => match nm with
                | .bid x => some x
                | _ => none
            let aliasName := match nm with
              | .bid x => some x
              | _ => none
            tryRegisterAlias aliasName className methodName true st)
        s
  | _ => s

/-- The `isCallLike && ts.isIdentifier(node.expression)` block: a call whose
callee is a registered alias. -/
def identCallStep (imp : List (String × List String)) (n : Node) (s : MatchState) : MatchState :=
  match n with
  | .callN (.identN f) _ =>
    match alookup s.aliasCalls f with
    | none => s
    | some aliasInfo =>
      let impactedMethods := (alookup imp aliasInfo.className).getD []
      match aliasInfo.methodName with
      | some m =>
        if m ∈ impactedMethods ∧ ¬ aliasInfo.isUncertain then
          { s with preciseMatches := insertSet (aliasInfo.className ++ "." ++ m) s.preciseMatches }
        else { s with uncertainCallSites := s.uncertainCallSites + 1 }
      | none => { s with uncertainCallSites := s.uncertainCallSites + 1 }
  | _ => s

/-- The `isCallLike && (isPropertyAccess || isElementAccess)` block:
precise vs uncertain classification of a member call on a fixture variable. -/
def memberCallStep (fv : List (String × String)) (imp : List (String × List String))
    (n : Node) (s : MatchState) : MatchState :=
  match n with
  | .callN (.propAccess obj m) _ =>
    match (getRootIdentifierName obj).bind (lookupTruthy fv) with
    | none => s
    | some className =>
      let impactedMethods := (alookup imp className).getD []
      let tooDeepForPrecise := getAccessChainDepth obj > maxPreciseChainDepth
      if tooDeepForPrecise then
        { s with uncertainCallSites := s.uncertainCallSites + 1 }
      else if m ∈ impactedMethods then
        { s with preciseMatches := insertSet (className ++ "." ++ m) s.preciseMatches }
      else s
  | .callN (.elemAccess obj arg) _ =>
    match (getRootIdentifierName obj).bind (lookupTruthy fv) with
    | none => s
    | some className =>
      let impactedMethods := (alookup imp className).getD []
      let tooDeepForPrecise := getAccessChainDepth obj > maxPreciseChainDepth
      match getLiteralName arg with
      | some m =>
        if tooDeepForPrecise then
          { s with uncertainCallSites := s.uncertainCallSites + 1 }
        else if m ∈ impactedMethods then
          { s with preciseMatches := insertSet (className ++ "." ++ m) s.preciseMatches }
        else s
      | none => { s with uncertainCallSites := s.uncertainCallSites + 1 }
  | _ => s

/-- One pre-order step of the Stage B visitor on a node. -/
def matchStep (fv : List (String × String)) (imp : List (String × List String))
    (n : Node) (s : MatchState) : MatchState :=
  memberCallStep fv imp n (identCallStep imp n (registerAliasesStep fv n s))

mutual
/-- The Stage B visitor: process the node, then recurse into its children in
`ts.forEachChild` order. -/
def visitMatch (fv : List (String × String)) (imp : List (String × List String)) :
    Node → MatchState → MatchState
  | n@(.identN _), s => matchStep fv imp n s
  | n@(.strLitN _), s => matchStep fv imp n s
  | n@Node.thisN, s => matchStep fv imp n s
  | n@(.propAccess obj _), s => visitMatch fv imp obj (matchStep fv imp n s)
  | n@(.elemAccess obj arg), s =>
    visitMatch fv imp arg (visitMatch fv imp obj (matchStep fv imp n s))
  | n@(.parenN e), s => visitMatch fv imp e (matchStep fv imp n s)
  | n@(.callN callee args), s =>
    visitMatchList fv imp args (visitMatch fv imp callee (matchStep fv imp n s))
  | n@(.varDecl _ init), s => visitMatchOpt fv imp init (matchStep fv imp n s)
  | n@(.arrowFn _ body), s => visitMatch fv imp body (matchStep fv imp n s)
  | n@(.funcExpr _ body), s => visitMatch fv imp body (matchStep fv imp n s)
  | n@(.funcDecl _ body), s => visitMatch fv imp body (matchStep fv imp n s)
  | n@(.blockN stmts), s => visitMatchList fv imp stmts (matchStep fv imp n s)
  | n@(.otherN children), s => visitMatchList fv imp children (matchStep fv imp n s)

def visitMatchList (fv : List (String × String)) (imp : List (String × List String)) :
    NodeList → MatchState → MatchState
  | .nilN, s => s
  | .consN n rest, s => visitMatchList fv imp rest (visitMatch fv imp n s)

def visitMatchOpt (fv : List (String × String)) (imp : List (String × List String)) :
    OptionNode → MatchState → MatchState
  | .noneN, s => s
  | .someN n, s => visitMatch fv imp n s
end

structure MatchResult where
  preciseMatches : List String
  uncertainCallSites : Nat
  shouldIncludeByUncertain : Bool
  deriving DecidableEq, Repr

/-- `collectImpactedMethodMatchesInSpec`. -/
def collectImpactedMethodMatchesInSpec (sourceFile : Node)
    (fixtureVarToClass : List (String × String)) (impactedMethodsByClass : List (String × List String))
    (selectionBias : String) : MatchResult :=
  let includeUncertain := selectionBias = "fail-open"
  let st := visitMatch fixtureVarToClass impactedMethodsByClass sourceFile ⟨[], 0, []⟩
  { preciseMatches := insSort sLe st.preciseMatches
    uncertainCallSites := st.uncertainCallSites
    shouldIncludeByUncertain := includeUncertain ∧ st.uncertainCallSites > 0 }

/-- `getFixtureKeyFromBindingElement` (spec-selection flavour used by the
Stage B extractor). -/
def getFixtureKeyFromBindingElement : BindingElem → Option String
  | .belem propertyName nm =>
    match truthyOpt propertyName with
    | some p => some p
    | none =>
      match nm with
      | .bid x => some x
      | _ => none

/-- `parseBindingPattern` inside `extractFixtureVariablesFromSpecAst`. -/
def parseBindingPattern (fixtureKeyToClass : List (String × String))
    (fixtureKeys : List String) (elems : BindingElemList)
    (acc : List (String × String)) : List (String × String) :=
  elems.toList.foldl
    (fun acc e =>
      match getFixtureKeyFromBindingElement e with
      | none => acc
      | some fixtureKey =>
        if fixtureKey ∉ fixtureKeys then acc
        else
          match lookupTruthy fixtureKeyToClass fixtureKey with
          | none => acc
          | some className =>
            match e with
            | .belem _ (.bid v) => aset acc v className
            | .belem _ (.bobj _) => aset acc fixtureKey className
            | .belem _ (.barr _) => aset acc fixtureKey className)
    acc

/-- Parameter handling of the extractor's visitor on function-like nodes. -/
def extractParamsStep (fixtureKeyToClass : List (String × String))
    (fixtureKeys : List String) (params : List BindingName)
    (acc : List (String × String)) : List (String × String) :=
  if params.length > 0 then
    params.foldl
      (fun acc p =>
        match p with
        | .bobj elems => parseBindingPattern fixtureKeyToClass fixtureKeys elems acc
        | _ => acc)
      acc
  else acc

mutual
/-- `extractFixtureVariablesFromSpecAst`'s visitor. -/
def visitExtract (fixtureKeyToClass : List (String × String)) (fixtureKeys : List String) :
    Node → List (String × String) → List (String × String)
  | .identN _, acc => acc
  | .strLitN _, acc => acc
  | Node.thisN, acc => acc
  | .propAccess obj _, acc => visitExtract fixtureKeyToClass fixtureKeys obj acc
  | .elemAccess obj arg, acc =>
    visitExtract fixtureKeyToClass fixtureKeys arg
      (visitExtract fixtureKeyToClass fixtureKeys obj acc)
  | .parenN e, acc => visitExtract fixtureKeyToClass fixtureKeys e acc
  | .callN callee args, acc =>
    visitExtractList fixtureKeyToClass fixtureKeys args
      (visitExtract fixtureKeyToClass fixtureKeys callee acc)
  | .varDecl _ init, acc => visitExtractOpt fixtureKeyToClass fixtureKeys init acc
  | .arrowFn params body, acc =>
    visitExtract fixtureKeyToClass fixtureKeys body
      (extractParamsStep fixtureKeyToClass fixtureKeys params acc)
  | .funcExpr params body, acc =>
    visitExtract fixtureKeyToClass fixtureKeys body
      (extractParamsStep fixtureKeyToClass fixtureKeys params acc)
  | .funcDecl params body, acc =>
    visitExtract fixtureKeyToClass fixtureKeys body
      (extractParamsStep fixtureKeyToClass fixtureKeys params acc)
  | .blockN stmts, acc => visitExtractList fixtureKeyToClass fixtureKeys stmts acc
  | .otherN children, acc => visitExtractList fixtureKeyToClass fixtureKeys children acc

def visitExtractList (fixtureKeyToClass : List (String × String)) (fixtureKeys : List String) :
    NodeList → List (String × String) → List (String × String)
  | .nilN, acc => acc
  | .consN n rest, acc =>
    visitExtractList fixtureKeyToClass fixtureKeys rest
      (visitExtract fixtureKeyToClass fixtureKeys n acc)

def visitExtractOpt (fixtureKeyToClass : List (String × String)) (fixtureKeys : List String) :
    OptionNode → List (String × String) → List (String × String)
  | .noneN, acc => acc
  | .someN n, acc => visitExtract fixtureKeyToClass fixtureKeys n acc
end

/-- `extractFixtureVariablesFromSpecAst`. -/
def extractFixtureVariablesFromSpecAst (sourceFile : Node)
    (fixtureKeyToClass : List (String × String)) (fixtureKeys : List String) :
    List (String × String) :=
  visitExtract fixtureKeyToClass fixtureKeys sourceFile []

/-! ## Stage B spec filter (`filterSpecsByImpactedMethods`) -/

structure FilterResult where
  filteredSpecs : List String
  droppedByMethodFilter : Nat
  retainedWithoutMethodFilter : Nat
  selectionReasons : List (String × String)
  uncertainCallSites : Nat
  warnings : List String
  deriving DecidableEq, Repr

structure FilterState where
  filtered : List String
  dropped : Nat
  retained : Nat
  reasons : List (String × String)
  uncertain : Nat
  warnings : List String
  deriving DecidableEq, Repr

/-- Body of `for (const specPath of selectedSpecs)` in the filter's main
loop. `readSpec` merges `fs.readFileSync` and `ts.createSourceFile`
(external); `none` is a read failure, parsing itself never throws. -/
def filterStep (directChangedSet alwaysIncludeSet : List String)
    (fixtureKeyToClass : List (String × String)) (fixtureKeys : List String)
    (impactedMethodsByClass : List (String × List String)) (selectionBias : String)
    (readSpec : String → Option Node) (st : FilterState) (specPath : String) : FilterState :=
  if specPath ∈ directChangedSet then
    { st with
      filtered := st.filtered ++ [specPath]
      reasons := aset st.reasons specPath "direct-changed-spec" }
  else if specPath ∈ alwaysIncludeSet then
    { st with
      filtered := st.filtered ++ [specPath]
      reasons := aset st.reasons specPath "matched-import-graph" }
  else
    match readSpec specPath with
    | none =>
      { st with
        retained := st.retained + 1
        filtered := st.filtered ++ [specPath]
        reasons := aset st.reasons specPath "retained-read-error" }
    | some sourceFile =>
      let fixtureVarToClass := extractFixtureVariablesFromSpecAst sourceFile
        fixtureKeyToClass fixtureKeys
      if fixtureVarToClass = [] then
        { st with
          retained := st.retained + 1
          filtered := st.filtered ++ [specPath]
          reasons := aset st.reasons specPath "retained-no-bindings" }
      else
        let matchResult := collectImpactedMethodMatchesInSpec sourceFile fixtureVarToClass
          impactedMethodsByClass selectionBias
        let st := { st with uncertain := st.uncertain + matchResult.uncertainCallSites }
        if matchResult.preciseMatches ≠ [] then
          { st with
            filtered := st.filtered ++ [specPath]
            reasons := aset st.reasons specPath "matched-precise" }
        else if matchResult.shouldIncludeByUncertain then
          { st with
            filtered := st.filtered ++ [specPath]
            reasons := aset st.reasons specPath "matched-uncertain-fail-open"
            warnings := st.warnings ++ [s!"Uncertain callsite retained spec: {specPath}"] }
        else { st with dropped := st.dropped + 1 }

/-- One spec of the retain-all branch of `filterSpecsByImpactedMethods`
(`impactedMethodsByClass` empty): count and reason bookkeeping only. -/
def noImpactStep (directChangedSpecsAbs alwaysIncludeSpecsAbs : List String)
    (st : Nat × List (String × String)) (specPath : String) :
    Nat × List (String × String) :=
  if specPath ∈ directChangedSpecsAbs then
    (st.1, aset st.2 specPath "direct-changed-spec")
  else if specPath ∈ alwaysIncludeSpecsAbs then
    (st.1, aset st.2 specPath "matched-import-graph")
  else (st.1 + 1, aset st.2 specPath "retained-no-impacted-methods")

/-- `filterSpecsByImpactedMethods`. -/
def filterSpecsByImpactedMethods (selectedSpecs directChangedSpecsAbs alwaysIncludeSpecsAbs : List String)
    (fixtureKeyToClass : List (String × String)) (fixtureKeys : List String)
    (impactedMethodsByClass : List (String × List String)) (selectionBias : String)
    (readSpec : String → Option Node) : FilterResult :=
  if selectedSpecs = [] then
    { filteredSpecs := [], droppedByMethodFilter := 0, retainedWithoutMethodFilter := 0,
      selectionReasons := [], uncertainCallSites := 0, warnings := [] }
  else if impactedMethodsByClass = [] then
    let st := selectedSpecs.foldl
      (noImpactStep directChangedSpecsAbs alwaysIncludeSpecsAbs) (0, [])
    { filteredSpecs := selectedSpecs, droppedByMethodFilter := 0,
      retainedWithoutMethodFilter := st.1, selectionReasons := st.2,
      uncertainCallSites := 0, warnings := [] }
  else
    let st := selectedSpecs.foldl
      (filterStep directChangedSpecsAbs alwaysIncludeSpecsAbs fixtureKeyToClass fixtureKeys
        impactedMethodsByClass selectionBias readSpec)
      ⟨[], 0, 0, [], 0, []⟩
    { filteredSpecs := insSort sLe st.filtered
      droppedByMethodFilter := st.dropped
      retainedWithoutMethodFilter := st.retained
      selectionReasons := st.reasons
      uncertainCallSites := st.uncertain
      warnings := st.warnings }

/-! ## Pipeline wiring (`src/analyze-impacted-specs.js`)

File-system and git collaborators, and the stages whose inputs are whole
directory trees (inheritance scan, class-name regex scan, propagation,
fixture-map parsing, Stage A listing, import-graph selection), enter as
fields of `AnalyzeWorld`; every decision made inside
`analyzeImpactedSpecs` itself is modelled. -/

/-- `DIRECT_CHANGED_SPEC_STATUSES`. -/
def directChangedSpecStatuses : List String := ["A", "M", "R"]

/-- `normalizeFileExtensions`. -/
def normalizeFileExtensions (fileExtensions : List String) : List String :=
  let source := if fileExtensions ≠ [] then fileExtensions else [".ts", ".tsx"]
  let normalized := (source.map (fun ext => strToLower (strTrim ext))).filter
    (fun ext => strStartsWith ext ".")
  if normalized ≠ [] then dedupKeepFirst normalized else [".ts", ".tsx"]

structure StatusSummary where
  countA : Nat
  countM : Nat
  countD : Nat
  countR : Nat
  deriving DecidableEq, Repr

/-- `getStatusSummary`. -/
def getStatusSummary (entries : List Entry) : StatusSummary :=
  entries.foldl
    (fun s e =>
      if e.status = "A" then { s with countA := s.countA + 1 }
      else if e.status = "M" then { s with countM := s.countM + 1 }
      else if e.status = "D" then { s with countD := s.countD + 1 }
      else if e.status = "R" then { s with countR := s.countR + 1 }
      else s)
    ⟨0, 0, 0, 0⟩

/-- `getFixtureKeysForClasses` (`class-impact-helpers.js`). -/
def getFixtureKeysForClasses (impactedClasses : List String)
    (classToFixtureKeys : List (String × List String)) : List String :=
  impactedClasses.foldl
    (fun keys className =>
      ((alookup classToFixtureKeys className).getD []).foldl
        (fun acc k => insertSet k acc) keys)
    []

structure PropagationStats where
  impactedMethodsTotal : Nat
  deriving DecidableEq, Repr

/-- Output shape of `buildImpactedMethodsByClass`, provided by the world
(its graph construction reads every analysis-root file from disk). -/
structure PropagationOut where
  impactedMethodsByClass : List (String × List String)
  stats : PropagationStats
  warnings : List String

/-- Profile configuration (`AnalyzeProfile`); the analysis-roots and
fixture-types paths are consumed only by world collaborators. -/
structure Profile where
  testsRootRelative : String
  changedSpecPrefix : String
  isRelevantPomPath : String → Bool
  globalWatchPatterns : List String
  globalWatchMode : String

structure AnalyzeConfig where
  repoRoot : String
  baseRef : Option String
  profile : Profile
  includeUntrackedSpecs : Bool
  includeWorkingTreeWithBase : Bool
  fileExtensions : List String
  selectionBias : String

/-- External collaborators of one invocation (git, file system, parser). -/
structure AnalyzeWorld where
  baseHeadDiff : List Entry
  workingTreeDiff : List Entry
  untrackedRaw : List String
  testsRootFiles : List String
  watchClosureAbs : List String
  readChange : Entry → Option SourceFile × Option SourceFile
  impactedClassesOf : List Entry → List String
  propagate : List String → List (String × List String) → PropagationOut
  classToFixtureKeys : List (String × List String)
  fixtureKeyToClass : List (String × String)
  stageASelect : List String → List String
  importSelect : List Entry → List String
  readSpec : String → Option Node

structure AnalyzeResult where
  selectedSpecs : List String
  selectedSpecsRelative : List String
  changedPomEntries : List Entry
  directChangedSpecFiles : List String
  statusSummary : StatusSummary
  impactedClasses : List String
  impactedMethodsByClass : List (String × List String)
  fixtureKeys : List String
  stageASelectedCount : Nat
  semanticStats : SemanticStats
  propagationStats : PropagationStats
  droppedByMethodFilter : Nat
  retainedWithoutMethodFilter : Nat
  selectionReasons : List (String × String)
  hasAnythingToRun : Bool
  warnings : List String
  uncertainCallSites : Nat
  statusFallbackHits : Nat
  fromBaseHead : Nat
  fromWorkingTree : Nat
  fromUntracked : Nat
  forcedAllSpecs : Bool
  forcedAllSpecsReason : Option String
  globalWatchMatches : List String
  globalWatchResolvedFiles : List String

/-- Results of the semantic seed / propagation / Stage A block of the main
branch (`let` bindings at the top of `analyzeImpactedSpecs`). -/
structure MainSemantic where
  impactedClasses : List String
  impactedMethodsByClass : List (String × List String)
  fixtureKeys : List String
  fixtureKeyToClass : List (String × String)
  stageASpecs : List String
  semanticStats : SemanticStats
  propagationStats : PropagationStats
  propagationWarnings : List String

def emptyMainSemantic : MainSemantic :=
  { impactedClasses := [], impactedMethodsByClass := [], fixtureKeys := [],
    fixtureKeyToClass := [], stageASpecs := [], semanticStats := emptySemanticStats,
    propagationStats := ⟨0⟩, propagationWarnings := [] }

/-- The `if (changedPomEntries.length > 0)` semantic block of the main branch. -/
def runSemanticBlock (world : AnalyzeWorld) (changedPomEntries : List Entry) : MainSemantic :=
  if changedPomEntries = [] then emptyMainSemantic
  else
    let det := collectChangedMethodsByClass changedPomEntries world.readChange
    let hasSemanticPomImpact := det.stats.semanticChangedMethodsCount > 0 ∨
      det.stats.topLevelRuntimeChangedFiles > 0
    if hasSemanticPomImpact then
      let impactedClasses := world.impactedClassesOf changedPomEntries
      let prop := world.propagate impactedClasses det.changedMethodsByClass
      let classesForFixtureSelection := if prop.impactedMethodsByClass ≠ [] then
        akeys prop.impactedMethodsByClass else impactedClasses
      let fixtureKeys := getFixtureKeysForClasses classesForFixtureSelection
        world.classToFixtureKeys
      let stageASpecs := if fixtureKeys ≠ [] then world.stageASelect fixtureKeys else []
      { impactedClasses := impactedClasses
        impactedMethodsByClass := prop.impactedMethodsByClass
        fixtureKeys := fixtureKeys
        fixtureKeyToClass := world.fixtureKeyToClass
        stageASpecs := stageASpecs
        semanticStats := det.stats
        propagationStats := prop.stats
        propagationWarnings := prop.warnings }
    else { emptyMainSemantic with semanticStats := det.stats }

/-- Force-all branch of `analyzeImpactedSpecs` (analyze-impacted-specs.js:111-141):
every spec under the tests root is selected with reason `global-watch-force-all`. -/
def forceAllResult (cfg : AnalyzeConfig) (world : AnalyzeWorld)
    (effectiveExtensions : List String) (cer : ChangedEntriesResult)
    (changedPomEntries : List Entry) (directChangedSpecFiles : List String)
    (globalWatch : GlobalWatchResult) : AnalyzeResult :=
  let selectedSpecs := insSort sLe (world.testsRootFiles.filter
    (fun f => effectiveExtensions.any (fun ext => strEndsWith f (".spec" ++ ext))))
  { selectedSpecs := selectedSpecs
    selectedSpecsRelative := selectedSpecs.map (relativize cfg.repoRoot)
    changedPomEntries := changedPomEntries
    directChangedSpecFiles := directChangedSpecFiles
    statusSummary := getStatusSummary changedPomEntries
    impactedClasses := []
    impactedMethodsByClass := []
    fixtureKeys := []
    stageASelectedCount := selectedSpecs.length
    semanticStats := emptySemanticStats
    propagationStats := ⟨0⟩
    droppedByMethodFilter := 0
    retainedWithoutMethodFilter := 0
    selectionReasons := selectedSpecs.map (fun p => (p, "global-watch-force-all"))
    hasAnythingToRun := selectedSpecs.length > 0
    warnings := cer.warnings
    uncertainCallSites := 0
    statusFallbackHits := cer.statusFallbackHits
    fromBaseHead := cer.fromBaseHead
    fromWorkingTree := cer.fromWorkingTree
    fromUntracked := cer.fromUntracked
    forcedAllSpecs := true
    forcedAllSpecsReason := some "global-watch-force-all"
    globalWatchMatches := globalWatch.matchedPaths
    globalWatchResolvedFiles := globalWatch.resolvedFiles }

/-- Fast-exit branch of `analyzeImpactedSpecs`: nothing relevant changed. -/
def fastExitResult (cer : ChangedEntriesResult) (changedPomEntries : List Entry)
    (directChangedSpecFiles : List String) (globalWatch : GlobalWatchResult) :
    AnalyzeResult :=
  { selectedSpecs := []
    selectedSpecsRelative := []
    changedPomEntries := changedPomEntries
    directChangedSpecFiles := directChangedSpecFiles
    statusSummary := getStatusSummary changedPomEntries
    impactedClasses := []
    impactedMethodsByClass := []
    fixtureKeys := []
    stageASelectedCount := 0
    semanticStats := emptySemanticStats
    propagationStats := ⟨0⟩
    droppedByMethodFilter := 0
    retainedWithoutMethodFilter := 0
    selectionReasons := []
    hasAnythingToRun := false
    warnings := cer.warnings
    uncertainCallSites := 0
    statusFallbackHits := cer.statusFallbackHits
    fromBaseHead := cer.fromBaseHead
    fromWorkingTree := cer.fromWorkingTree
    fromUntracked := cer.fromUntracked
    forcedAllSpecs := false
    forcedAllSpecsReason := none
    globalWatchMatches := globalWatch.matchedPaths
    globalWatchResolvedFiles := globalWatch.resolvedFiles }

/-- Main branch of `analyzeImpactedSpecs`: Stage A selection, semantic block,
and the Stage B method filter. -/
def mainResult (cfg : AnalyzeConfig) (world : AnalyzeWorld) (selectionBias : String)
    (cer : ChangedEntriesResult) (changedPomEntries : List Entry)
    (directChangedSpecFiles : List String) (globalWatch : GlobalWatchResult) :
    AnalyzeResult :=
  let importMatchedSpecs := if changedPomEntries ≠ [] then
    world.importSelect changedPomEntries else []
  let sem := runSemanticBlock world changedPomEntries
  let directChangedSpecsAbs := directChangedSpecFiles.map (joinPath cfg.repoRoot)
  let selectedSpecs := insSort sLe
    (dedupKeepFirst (sem.stageASpecs ++ directChangedSpecsAbs ++ importMatchedSpecs))
  let stageASelectedCount := selectedSpecs.length
  let methodFilterResult := filterSpecsByImpactedMethods selectedSpecs directChangedSpecsAbs
    importMatchedSpecs sem.fixtureKeyToClass sem.fixtureKeys sem.impactedMethodsByClass
    selectionBias world.readSpec
  { selectedSpecs := methodFilterResult.filteredSpecs
    selectedSpecsRelative := methodFilterResult.filteredSpecs.map (relativize cfg.repoRoot)
    changedPomEntries := changedPomEntries
    directChangedSpecFiles := directChangedSpecFiles
    statusSummary := getStatusSummary changedPomEntries
    impactedClasses := sem.impactedClasses
    impactedMethodsByClass := sem.impactedMethodsByClass
    fixtureKeys := sem.fixtureKeys
    stageASelectedCount := stageASelectedCount
    semanticStats := sem.semanticStats
    propagationStats := sem.propagationStats
    droppedByMethodFilter := methodFilterResult.droppedByMethodFilter
    retainedWithoutMethodFilter := methodFilterResult.retainedWithoutMethodFilter
    selectionReasons := methodFilterResult.selectionReasons
    hasAnythingToRun := methodFilterResult.filteredSpecs.length > 0
    warnings := cer.warnings ++ sem.propagationWarnings ++ methodFilterResult.warnings
    uncertainCallSites := methodFilterResult.uncertainCallSites
    statusFallbackHits := cer.statusFallbackHits
    fromBaseHead := cer.fromBaseHead
    fromWorkingTree := cer.fromWorkingTree
    fromUntracked := cer.fromUntracked
    forcedAllSpecs := false
    forcedAllSpecsReason := none
    globalWatchMatches := globalWatch.matchedPaths
    globalWatchResolvedFiles := globalWatch.resolvedFiles }

/-- `effectiveExtensions` in `analyzeImpactedSpecs`. -/
def effectiveExtensionsOf (cfg : AnalyzeConfig) : List String :=
  normalizeFileExtensions cfg.fileExtensions

/-- The defaulted `globalWatchMode` in `analyzeImpactedSpecs`. -/
def globalWatchModeOf (cfg : AnalyzeConfig) : String :=
  if cfg.profile.globalWatchMode = "" then "force-all-in-project"
  else cfg.profile.globalWatchMode

/-- The defaulted `globalWatchPatterns` in `analyzeImpactedSpecs`. -/
def globalWatchPatternsOf (cfg : AnalyzeConfig) : List String :=
  if cfg.profile.globalWatchPatterns ≠ [] then
    cfg.profile.globalWatchPatterns else defaultGlobalWatchPatterns

/-- The `getChangedEntries` call in `analyzeImpactedSpecs`. -/
def cerOf (cfg : AnalyzeConfig) (world : AnalyzeWorld) : ChangedEntriesResult :=
  getChangedEntries cfg.baseRef cfg.includeWorkingTreeWithBase world.baseHeadDiff
    world.workingTreeDiff world.untrackedRaw cfg.profile.isRelevantPomPath
    (effectiveExtensionsOf cfg)

/-- `changedPomEntries` in `analyzeImpactedSpecs`. -/
def changedPomEntriesOf (cfg : AnalyzeConfig) (world : AnalyzeWorld) : List Entry :=
  (cerOf cfg world).entries.filter
    (fun e => (entryCandidates e).any cfg.profile.isRelevantPomPath)

/-- `changedSpecEntries` in `analyzeImpactedSpecs`. -/
def changedSpecEntriesOf (cfg : AnalyzeConfig) (world : AnalyzeWorld) : List Entry :=
  (cerOf cfg world).entries.filter (fun e =>
    let targetPath := strTrim e.effectivePath
    strStartsWith targetPath cfg.profile.changedSpecPrefix ∧
      (effectiveExtensionsOf cfg).any (fun ext => strEndsWith targetPath (".spec" ++ ext)))

/-- The `evaluateGlobalWatch` call in `analyzeImpactedSpecs` (skipped when the
mode is "disabled"). -/
def globalWatchOf (cfg : AnalyzeConfig) (world : AnalyzeWorld) : GlobalWatchResult :=
  if globalWatchModeOf cfg = "disabled" then GlobalWatchResult.mk [] []
  else evaluateGlobalWatch cfg.repoRoot (cerOf cfg world).entries
    (globalWatchPatternsOf cfg) world.watchClosureAbs

/-- `changedSpecFiles` in `analyzeImpactedSpecs`. -/
def changedSpecFilesOf (cfg : AnalyzeConfig) (world : AnalyzeWorld) : List String :=
  (((changedSpecEntriesOf cfg world).filter
    (fun e => e.status ∈ directChangedSpecStatuses)).map (·.effectivePath)).filter (· ≠ "")

/-- `untrackedSpecFiles` in `analyzeImpactedSpecs`. -/
def untrackedSpecFilesOf (cfg : AnalyzeConfig) (world : AnalyzeWorld) : List String :=
  if cfg.includeUntrackedSpecs then
    getUntrackedSpecPaths world.untrackedRaw cfg.profile.changedSpecPrefix
      (effectiveExtensionsOf cfg)
  else []

/-- `directChangedSpecFiles` in `analyzeImpactedSpecs`. -/
def directChangedSpecFilesOf (cfg : AnalyzeConfig) (world : AnalyzeWorld) : List String :=
  insSort sLe (dedupKeepFirst (changedSpecFilesOf cfg world ++ untrackedSpecFilesOf cfg world))

/-- Body of `analyzeImpactedSpecs` after configuration validation, as a
function of the destructured `selectionBias` parameter. -/
def analyzeCoreWithBias (cfg : AnalyzeConfig) (world : AnalyzeWorld)
    (selectionBias : String) : AnalyzeResult :=
  if globalWatchModeOf cfg ≠ "disabled" ∧ (globalWatchOf cfg world).matchedPaths ≠ [] then
    forceAllResult cfg world (effectiveExtensionsOf cfg) (cerOf cfg world)
      (changedPomEntriesOf cfg world) (directChangedSpecFilesOf cfg world)
      (globalWatchOf cfg world)
  else if changedPomEntriesOf cfg world = [] ∧ directChangedSpecFilesOf cfg world = [] then
    fastExitResult (cerOf cfg world) (changedPomEntriesOf cfg world)
      (directChangedSpecFilesOf cfg world) (globalWatchOf cfg world)
  else
    mainResult cfg world selectionBias (cerOf cfg world) (changedPomEntriesOf cfg world)
      (directChangedSpecFilesOf cfg world) (globalWatchOf cfg world)

/-- `analyzeImpactedSpecs` after configuration validation. -/
def analyzeCore (cfg : AnalyzeConfig) (world : AnalyzeWorld) : AnalyzeResult :=
  analyzeCoreWithBias cfg world cfg.selectionBias

/-- `analyzeImpactedSpecs` with `validateProfile` and the `repoRoot` check;
the object-shape and function-type checks hold by construction in Lean. -/
def analyzeImpactedSpecs (cfg : AnalyzeConfig) (world : AnalyzeWorld) :
    Except String AnalyzeResult :=
  if cfg.profile.testsRootRelative = "" then .error "Missing profile.testsRootRelative"
  else if cfg.profile.changedSpecPrefix = "" then .error "Missing profile.changedSpecPrefix"
  else if cfg.repoRoot = "" then .error "Missing required repoRoot"
  else .ok (analyzeCore cfg world)

/-! ## Claim theorems -/

theorem strToUpper_fixed :
    strToUpper "A" = "A" ∧ strToUpper "M" = "M" ∧ strToUpper "D" = "D" ∧
    strToUpper "R" = "R" ∧ strToUpper "C" = "C" ∧ strToUpper "T" = "T" ∧
    strToUpper "U" = "U" := by decide

/-- **C10**: status normalization leaves the canonical statuses `A`, `M`,
`D`, `R` unchanged, maps `C` to `A`, maps `T` and `U` to `M`, maps any
other (non-canonical) value to `M`, and emits exactly one warning per
applied fallback (none for canonical statuses). -/
theorem c10_status_normalization (entry : Entry) :
    ((entry.status = "A" ∨ entry.status = "M" ∨ entry.status = "D" ∨ entry.status = "R") →
      (normalizeEntryStatus entry).1.status = entry.status ∧
        (normalizeEntryStatus entry).2 = []) ∧
    (entry.status = "C" →
      (normalizeEntryStatus entry).1.status = "A" ∧
        (normalizeEntryStatus entry).2.length = 1) ∧
    ((entry.status = "T" ∨ entry.status = "U") →
      (normalizeEntryStatus entry).1.status = "M" ∧
        (normalizeEntryStatus entry).2.length = 1) ∧
    (strToUpper entry.status ∉ (["A", "M", "D", "R", "C", "T", "U"] : List String) →
      (normalizeEntryStatus entry).1.status = "M" ∧
        (normalizeEntryStatus entry).2.length = 1) := by
  refine ⟨?_, ?_, ?_, ?_⟩
  · rintro (h | h | h | h) <;>
      simp [normalizeEntryStatus, h, strToUpper_fixed.1, strToUpper_fixed.2.1,
        strToUpper_fixed.2.2.1, strToUpper_fixed.2.2.2.1]
  · intro h
    simp [normalizeEntryStatus, h, strToUpper_fixed.2.2.2.2.1]
  · rintro (h | h) <;>
      simp [normalizeEntryStatus, h, strToUpper_fixed.2.2.2.2.2.1,
        strToUpper_fixed.2.2.2.2.2.2]
  · intro hne
    have h1 : ¬ (strToUpper entry.status = "A" ∨ strToUpper entry.status = "M" ∨
        strToUpper entry.status = "D" ∨ strToUpper entry.status = "R") := by
      rintro (h | h | h | h) <;> exact hne (by simp [h])
    have h2 : ¬ strToUpper entry.status = "C" := fun h => hne (by simp [h])
    have h3 : ¬ (strToUpper entry.status = "T" ∨ strToUpper entry.status = "U") := by
      rintro (h | h) <;> exact hne (by simp [h])
    simp only [normalizeEntryStatus, h1, h2, h3, if_false]
    exact ⟨trivial, rfl⟩

/-- Concrete entry exercising the unknown-status fallback. -/
def entryC10 : Entry := ⟨"X", none, none, "src/pages/p.ts", "X"⟩

theorem c10_status_normalization_witness :
    (strToUpper entryC10.status ∉ (["A", "M", "D", "R", "C", "T", "U"] : List String)) ∧
    ((normalizeEntryStatus entryC10).1.status = "M" ∧
      (normalizeEntryStatus entryC10).2.length = 1) :=
  ⟨by decide, (c10_status_normalization entryC10).2.2.2 (by decide)⟩

/-! ### C4 support: invariants of the merge fold -/

theorem normalizeEntryStatus_eff (e : Entry) :
    (normalizeEntryStatus e).1.effectivePath = e.effectivePath := by
  simp only [normalizeEntryStatus]
  split_ifs <;> rfl

theorem normalizeEntryStatus_canonical (e : Entry) :
    (normalizeEntryStatus e).1.status = "A" ∨ (normalizeEntryStatus e).1.status = "M" ∨
    (normalizeEntryStatus e).1.status = "D" ∨ (normalizeEntryStatus e).1.status = "R" := by
  simp only [normalizeEntryStatus]
  by_cases h1 : strToUpper e.status = "A" ∨ strToUpper e.status = "M" ∨
      strToUpper e.status = "D" ∨ strToUpper e.status = "R"
  · rw [if_pos h1]; simpa using h1
  · rw [if_neg h1]
    by_cases h2 : strToUpper e.status = "C"
    · rw [if_pos h2]; exact Or.inl rfl
    · rw [if_neg h2]
      by_cases h3 : strToUpper e.status = "T" ∨ strToUpper e.status = "U"
      · rw [if_pos h3]; exact Or.inr (Or.inl rfl)
      · rw [if_neg h3]; exact Or.inr (Or.inl rfl)

theorem mergeByPriority_cases (a b : Entry) :
    mergeByPriority (some a) b = a ∨ mergeByPriority (some a) b = b := by
  simp only [mergeByPriority]
  by_cases h1 : statusPriority b.status > statusPriority a.status
  · rw [if_pos h1]; exact Or.inr rfl
  · rw [if_neg h1]
    by_cases h2 : statusPriority b.status < statusPriority a.status
    · rw [if_pos h2]; exact Or.inl rfl
    · rw [if_neg h2]
      split_ifs
      · exact Or.inr rfl
      · exact Or.inl rfl

theorem mergeByPriority_priority (a b : Entry) :
    statusPriority (mergeByPriority (some a) b).status =
      max (statusPriority a.status) (statusPriority b.status) := by
  simp only [mergeByPriority]
  by_cases h1 : statusPriority b.status > statusPriority a.status
  · rw [if_pos h1]; omega
  · rw [if_neg h1]
    by_cases h2 : statusPriority b.status < statusPriority a.status
    · rw [if_pos h2]; omega
    · rw [if_neg h2]
      split_ifs <;> omega

/-- `mergeStep` never hits its skip branch: normalization always yields a
canonical status. -/
theorem mergeStep_eq (st : MergeState) (e : Entry) :
    mergeStep st e =
      { warnings := st.warnings ++ (normalizeEntryStatus e).2
        statusFallbackHits :=
          if (normalizeEntryStatus e).1.status ≠ e.status then st.statusFallbackHits + 1
          else st.statusFallbackHits
        mergedByPath := aset st.mergedByPath (normalizeEntryStatus e).1.effectivePath
          (mergeByPriority (alookup st.mergedByPath (normalizeEntryStatus e).1.effectivePath)
            (normalizeEntryStatus e).1) } := by
  have hcan := normalizeEntryStatus_canonical e
  unfold mergeStep
  rcases hne : normalizeEntryStatus e with ⟨nrm, nw⟩
  rw [hne] at hcan
  dsimp only at hcan ⊢
  rw [if_pos hcan]

/-- Every stored value is keyed by its own effective path. -/
def WellKeyed (m : List (String × Entry)) : Prop :=
  ∀ p ∈ m, p.2.effectivePath = p.1

theorem alookup_mem [DecidableEq κ] (m : List (κ × ν)) (k : κ) (v : ν)
    (h : alookup m k = some v) : (k, v) ∈ m := by
  induction m with
  | nil => simp [alookup] at h
  | cons p m ih =>
    obtain ⟨k0, v0⟩ := p
    by_cases hk : k = k0
    · subst hk
      simp [alookup] at h
      subst h
      exact List.mem_cons_self _ _
    · simp only [alookup, hk, if_false] at h
      exact List.mem_cons_of_mem _ (ih h)

theorem mem_aset [DecidableEq κ] (m : List (κ × ν)) (k : κ) (v : ν) (p : κ × ν)
    (hp : p ∈ aset m k v) : p ∈ m ∨ p = (k, v) := by
  induction m with
  | nil =>
    simp only [aset, List.mem_singleton] at hp
    exact Or.inr hp
  | cons q m ih =>
    obtain ⟨k0, v0⟩ := q
    by_cases hk : k = k0
    · subst hk
      simp only [aset, eq_self_iff_true, if_true, List.mem_cons] at hp
      rcases hp with heq2 | hp2
      · exact Or.inr heq2
      · exact Or.inl (List.mem_cons_of_mem _ hp2)
    · simp only [aset, hk, if_false, List.mem_cons] at hp
      rcases hp with heq2 | hp2
      · exact Or.inl (heq2 ▸ List.mem_cons_self _ _)
      · rcases ih hp2 with h' | h'
        · exact Or.inl (List.mem_cons_of_mem _ h')
        · exact Or.inr h'

theorem aset_wellKeyed (m : List (String × Entry)) (k : String) (v : Entry)
    (hm : WellKeyed m) (hv : v.effectivePath = k) : WellKeyed (aset m k v) := by
  intro p hp
  rcases mem_aset m k v p hp with h' | h'
  · exact hm p h'
  · rw [h']
    exact hv

theorem fold_mergeStep_invariant (combined : List Entry) (st : MergeState)
    (h1 : WellKeyed st.mergedByPath) (h2 : (akeys st.mergedByPath).Nodup) :
    WellKeyed (combined.foldl mergeStep st).mergedByPath ∧
      (akeys (combined.foldl mergeStep st).mergedByPath).Nodup := by
  induction combined generalizing st with
  | nil => exact ⟨h1, h2⟩
  | cons e rest ih =>
    rw [List.foldl_cons, mergeStep_eq]
    apply ih
    · apply aset_wellKeyed _ _ _ h1
      cases hl : alookup st.mergedByPath (normalizeEntryStatus e).1.effectivePath with
      | none => rfl
      | some v =>
        rcases mergeByPriority_cases v (normalizeEntryStatus e).1 with hc | hc
        · rw [hc]
          exact h1 _ (alookup_mem _ _ _ hl)
        · rw [hc]
    · exact nodup_akeys_aset _ _ _ h2

/-- The per-path fold of `mergeByPriority` over a duplicate group, in
arrival order. -/
def mergeFoldFrom (init : Option Entry) (l : List Entry) : Option Entry :=
  l.foldl (fun acc e => some (mergeByPriority acc e)) init

theorem fold_mergeStep_lookup (combined : List Entry) (st : MergeState) (p : String) :
    alookup (combined.foldl mergeStep st).mergedByPath p =
      mergeFoldFrom (alookup st.mergedByPath p)
        ((combined.map (fun e => (normalizeEntryStatus e).1)).filter
          (fun x => x.effectivePath = p)) := by
  induction combined generalizing st with
  | nil => rfl
  | cons e rest ih =>
    rw [List.foldl_cons, mergeStep_eq, List.map_cons]
    by_cases hp : (normalizeEntryStatus e).1.effectivePath = p
    · rw [List.filter_cons_of_pos (by simpa using hp)]
      rw [ih]
      rw [hp, alookup_aset_self]
      rfl
    · rw [List.filter_cons_of_neg (by simpa using hp)]
      rw [ih, alookup_aset_ne]
      intro hc
      exact hp hc.symm

theorem mergeFoldFrom_acc_le (l : List Entry) (a e : Entry)
    (h : mergeFoldFrom (some a) l = some e) :
    statusPriority a.status ≤ statusPriority e.status := by
  induction l generalizing a with
  | nil =>
    simp only [mergeFoldFrom, List.foldl_nil, Option.some.injEq] at h
    rw [h]
  | cons x rest ih =>
    have h' : mergeFoldFrom (some (mergeByPriority (some a) x)) rest = some e := h
    have hrec := ih _ h'
    have hmax := mergeByPriority_priority a x
    omega

theorem mergeFoldFrom_priority (l : List Entry) (init : Option Entry) (e : Entry)
    (h : mergeFoldFrom init l = some e) :
    ∀ x ∈ l, statusPriority x.status ≤ statusPriority e.status := by
  induction l generalizing init with
  | nil => intro x hx; simp at hx
  | cons y rest ih =>
    intro x hx
    have h' : mergeFoldFrom (some (mergeByPriority init y)) rest = some e := h
    rcases List.mem_cons.1 hx with heq | hx
    · subst heq
      have hle := mergeFoldFrom_acc_le _ _ _ h'
      cases init with
      | none =>
        simp only [mergeByPriority] at hle
        exact hle
      | some a =>
        have hmax := mergeByPriority_priority a x
        omega
    · exact ih _ h' x hx

theorem map_eff_avalues (m : List (String × Entry)) (h : WellKeyed m) :
    (avalues m).map (fun e => e.effectivePath) = akeys m := by
  induction m with
  | nil => rfl
  | cons p m ih =>
    simp only [avalues, akeys, List.map_cons, List.map_map] at ih ⊢
    refine congrArg₂ _ ?_ ?_
    · exact h p (List.mem_cons_self _ _)
    · exact ih (fun q hq => h q (List.mem_cons_of_mem _ hq))

theorem getChangedEntries_entries_eq (baseRef : Option String) (includeWT : Bool)
    (bh wt : List Entry) (untrackedRaw : List String) (pom : String → Bool)
    (exts : List String) :
    (getChangedEntries baseRef includeWT bh wt untrackedRaw pom exts).entries =
      insSort (fun a b => sLe a.effectivePath b.effectivePath)
        (avalues ((combinedChangeSources baseRef includeWT bh wt untrackedRaw pom
          exts).foldl mergeStep ⟨[], 0, []⟩).mergedByPath) := rfl

/-- **C4**: `getChangedEntries` returns exactly one entry per effective
path, sorted lexicographically by effective path; the entry stored for a
path is the `mergeByPriority` fold (precedence `D > R > M > A`) of the
normalized entries arriving for that path, so its priority dominates the
group; and on a priority tie an incoming Renamed entry carrying both paths
replaces the existing entry while otherwise the existing entry is kept. -/
theorem c4_merge_dedupe_sort (baseRef : Option String) (includeWT : Bool)
    (bh wt : List Entry) (untrackedRaw : List String) (pom : String → Bool)
    (exts : List String) :
    SortedBy (fun a b => sLe a.effectivePath b.effectivePath)
      (getChangedEntries baseRef includeWT bh wt untrackedRaw pom exts).entries ∧
    ((getChangedEntries baseRef includeWT bh wt untrackedRaw pom exts).entries.map
      (fun e => e.effectivePath)).Nodup ∧
    (∀ e ∈ (getChangedEntries baseRef includeWT bh wt untrackedRaw pom exts).entries,
      mergeFoldFrom none
        (((combinedChangeSources baseRef includeWT bh wt untrackedRaw pom exts).map
            (fun x => (normalizeEntryStatus x).1)).filter
          (fun x => x.effectivePath = e.effectivePath)) = some e) ∧
    (∀ e ∈ (getChangedEntries baseRef includeWT bh wt untrackedRaw pom exts).entries,
      ∀ x ∈ (combinedChangeSources baseRef includeWT bh wt untrackedRaw pom exts).map
          (fun y => (normalizeEntryStatus y).1),
        x.effectivePath = e.effectivePath →
          statusPriority x.status ≤ statusPriority e.status) ∧
    (∀ existing incoming : Entry,
      statusPriority incoming.status = statusPriority existing.status →
        mergeByPriority (some existing) incoming =
          if incoming.status = "R" ∧ optTruthy incoming.oldPath ∧ optTruthy incoming.newPath
          then incoming else existing) := by
  have hfold := fold_mergeStep_invariant
    (combinedChangeSources baseRef includeWT bh wt untrackedRaw pom exts) ⟨[], 0, []⟩
    (by intro p hp; simp at hp) (by simp [akeys])
  have hmemlookup : ∀ e ∈ (getChangedEntries baseRef includeWT bh wt untrackedRaw pom
      exts).entries,
      mergeFoldFrom none
        (((combinedChangeSources baseRef includeWT bh wt untrackedRaw pom exts).map
            (fun x => (normalizeEntryStatus x).1)).filter
          (fun x => x.effectivePath = e.effectivePath)) = some e := by
    intro e he
    rw [getChangedEntries_entries_eq] at he
    have hv := (mem_insSort _ _ _).1 he
    obtain ⟨k, hk⟩ := mem_avalues_exists_alookup _ hfold.2 e hv
    have hek : e.effectivePath = k := hfold.1 _ (alookup_mem _ _ _ hk)
    rw [fold_mergeStep_lookup] at hk
    rw [hek]
    exact hk
  refine ⟨?_, ?_, hmemlookup, ?_, ?_⟩
  · rw [getChangedEntries_entries_eq]
    exact sortedBy_insSort (fun (a b : Entry) => sLe a.effectivePath b.effectivePath)
      (fun (a b : Entry) => sLe_total a.effectivePath b.effectivePath)
      (fun (a b c : Entry) h1 h2 => sLe_trans h1 h2) _
  · rw [getChangedEntries_entries_eq]
    have hperm : ((insSort (fun a b => sLe a.effectivePath b.effectivePath)
        (avalues ((combinedChangeSources baseRef includeWT bh wt untrackedRaw pom
          exts).foldl mergeStep ⟨[], 0, []⟩).mergedByPath)).map
          (fun e => e.effectivePath)).Perm
        ((avalues ((combinedChangeSources baseRef includeWT bh wt untrackedRaw pom
          exts).foldl mergeStep ⟨[], 0, []⟩).mergedByPath).map
          (fun e => e.effectivePath)) :=
      (insSort_perm _ _).map _
    rw [hperm.nodup_iff, map_eff_avalues _ hfold.1]
    exact hfold.2
  · intro e he x hx hxe
    have hm := hmemlookup e he
    refine mergeFoldFrom_priority _ _ _ hm x ?_
    exact List.mem_filter.2 ⟨hx, by simpa using hxe⟩
  · intro existing incoming hprio
    simp only [mergeByPriority]
    rw [if_neg (by omega), if_neg (by omega)]

/-- Concrete change set: a base-vs-head Modified and a working-tree Deleted
entry for the same path, plus an unrelated Added entry. -/
def entC4m : Entry := ⟨"M", some "a.ts", some "a.ts", "a.ts", "M"⟩

def entC4d : Entry := ⟨"D", some "a.ts", none, "a.ts", "D"⟩

def entC4a : Entry := ⟨"A", none, some "b.ts", "b.ts", "A"⟩

theorem c4_merge_dedupe_sort_witness :
    entC4d ∈ (getChangedEntries (some "main") true [entC4m] [entC4d, entC4a] []
      (fun _ => true) [".ts"]).entries ∧
    mergeFoldFrom none
      (((combinedChangeSources (some "main") true [entC4m] [entC4d, entC4a] []
          (fun _ => true) [".ts"]).map
          (fun x => (normalizeEntryStatus x).1)).filter
        (fun x => x.effectivePath = entC4d.effectivePath)) = some entC4d :=
  ⟨by decide,
    (c4_merge_dedupe_sort (some "main") true [entC4m] [entC4d, entC4a] []
      (fun _ => true) [".ts"]).2.2.1 entC4d (by decide)⟩

/-! ### Detector support: monotonicity of the changed-methods map -/

/-- `(class, member)` is present in a `changed_methods_by_class` map. -/
def memberRecorded (acc : List (String × List String)) (c n : String) : Prop :=
  n ∈ (alookup acc c).getD []

theorem addChangedMethod_mono (acc : List (String × List String)) (c' n' c n : String)
    (h : memberRecorded acc c n) : memberRecorded (addChangedMethod acc c' n') c n := by
  unfold addChangedMethod
  split_ifs with hskip
  · exact h
  · unfold memberRecorded at h ⊢
    by_cases hc : c = c'
    · subst hc
      rw [alookup_aset_self]
      exact mem_insertSet_of_mem _ h
    · rw [alookup_aset_ne _ _ _ _ hc]
      exact h

theorem addChangedMethod_self (acc : List (String × List String)) (c n : String)
    (hc : c ≠ "") (hn : n ≠ "") : memberRecorded (addChangedMethod acc c n) c n := by
  unfold addChangedMethod memberRecorded
  rw [if_neg (by simp [hc, hn])]
  rw [alookup_aset_self]
  exact mem_insertSet_self _ _

theorem foldl_addChangedMethod_mono (names : List String) (c' : String)
    (acc : List (String × List String)) (c n : String) (h : memberRecorded acc c n) :
    memberRecorded (names.foldl (fun a x => addChangedMethod a c' x) acc) c n := by
  induction names generalizing acc with
  | nil => exact h
  | cons x rest ih => exact ih _ (addChangedMethod_mono _ _ _ _ _ h)

theorem foldl_addChangedMethod_records (names : List String) (c : String)
    (acc : List (String × List String)) (n : String) (hn : n ∈ names) (hc : c ≠ "")
    (hn' : n ≠ "") :
    memberRecorded (names.foldl (fun a x => addChangedMethod a c x) acc) c n := by
  induction names generalizing acc with
  | nil => simp at hn
  | cons x rest ih =>
    rcases List.mem_cons.1 hn with heq | hmem
    · subst heq
      exact foldl_addChangedMethod_mono rest c _ c n (addChangedMethod_self acc c n hc hn')
    · exact ih _ hmem

theorem addCallableMembersFromClassModel_mono (classModel : Option ClassModel)
    (c' : String) (acc : List (String × List String)) (c n : String)
    (h : memberRecorded acc c n) :
    memberRecorded (addCallableMembersFromClassModel classModel c' acc) c n := by
  cases classModel with
  | none => exact h
  | some cm => exact foldl_addChangedMethod_mono _ _ _ _ _ h

theorem addCallableMembersFromClassModel_records (cm : ClassModel) (c : String)
    (acc : List (String × List String)) (n : String) (hn : n ∈ cm.callableMemberNames)
    (hc : c ≠ "") (hn' : n ≠ "") :
    memberRecorded (addCallableMembersFromClassModel (some cm) c acc) c n :=
  foldl_addChangedMethod_records _ _ _ _ hn hc hn'

theorem foldl_classFold_mono (l : List (String × ClassModel))
    (acc : List (String × List String)) (c n : String) (h : memberRecorded acc c n) :
    memberRecorded
      (l.foldl (fun a p => p.2.callableMemberNames.foldl
        (fun a' x => addChangedMethod a' p.1 x) a) acc) c n := by
  induction l generalizing acc with
  | nil => exact h
  | cons q rest ih =>
    rw [List.foldl_cons]
    exact ih _ (foldl_addChangedMethod_mono _ _ _ _ _ h)

theorem foldl_classFold_records (l : List (String × ClassModel))
    (acc : List (String × List String)) (p : String × ClassModel) (n : String)
    (hp : p ∈ l) (hn : n ∈ p.2.callableMemberNames) (hc : p.1 ≠ "") (hn' : n ≠ "") :
    memberRecorded
      (l.foldl (fun a q => q.2.callableMemberNames.foldl
        (fun a' x => addChangedMethod a' q.1 x) a) acc) p.1 n := by
  induction l generalizing acc with
  | nil => simp at hp
  | cons q rest ih =>
    rw [List.foldl_cons]
    rcases List.mem_cons.1 hp with heq | hmem
    · subst heq
      exact foldl_classFold_mono rest _ _ _
        (foldl_addChangedMethod_records _ _ _ _ hn hc hn')
    · exact ih _ hmem

theorem addAllCallableMembers_mono (parsed : Option FileModel)
    (acc : List (String × List String)) (c n : String) (h : memberRecorded acc c n) :
    memberRecorded (addAllCallableMembers parsed acc) c n := by
  cases parsed with
  | none => exact h
  | some fm => exact foldl_classFold_mono fm.classModels acc c n h

theorem addAllCallableMembers_records (fm : FileModel)
    (acc : List (String × List String)) (p : String × ClassModel) (n : String)
    (hp : p ∈ fm.classModels) (hn : n ∈ p.2.callableMemberNames) (hc : p.1 ≠ "")
    (hn' : n ≠ "") :
    memberRecorded (addAllCallableMembers (some fm) acc) p.1 n :=
  foldl_classFold_records fm.classModels acc p n hp hn hc hn'

theorem processIdentity_mono (baseClass headClass : Option ClassModel) (identity : String)
    (acc : List (String × List String)) (c n : String) (h : memberRecorded acc c n) :
    memberRecorded (processIdentity baseClass headClass identity acc) c n := by
  unfold processIdentity
  dsimp only
  split_ifs with h1 h2 h3
  · exact h
  · exact addChangedMethod_mono _ _ _ _ _ h
  · exact addCallableMembersFromClassModel_mono _ _ _ _ _
      (addCallableMembersFromClassModel_mono _ _ _ _ _ h)
  · exact h

theorem foldl_processIdentity_mono (ids : List String) (bc hcl : Option ClassModel)
    (acc : List (String × List String)) (c n : String) (h : memberRecorded acc c n) :
    memberRecorded (ids.foldl (fun a identity => processIdentity bc hcl identity a) acc)
      c n := by
  induction ids generalizing acc with
  | nil => exact h
  | cons i rest ih =>
    rw [List.foldl_cons]
    exact ih _ (processIdentity_mono _ _ _ _ _ _ h)

theorem processClass_mono (parsedBase parsedHead : Option FileModel) (className : String)
    (acc : List (String × List String)) (c n : String) (h : memberRecorded acc c n) :
    memberRecorded (processClass parsedBase parsedHead className acc) c n := by
  unfold processClass
  exact foldl_processIdentity_mono _ _ _ _ _ _ h

theorem foldl_processClass_mono (names : List String)
    (parsedBase parsedHead : Option FileModel) (acc : List (String × List String))
    (c n : String) (h : memberRecorded acc c n) :
    memberRecorded
      (names.foldl (fun a className => processClass parsedBase parsedHead className a) acc)
      c n := by
  induction names generalizing acc with
  | nil => exact h
  | cons x rest ih =>
    rw [List.foldl_cons]
    exact ih _ (processClass_mono _ _ _ _ _ _ h)

theorem implFingerprint_map (o : Option String) :
    implFingerprint o = (o.map normalizeText).getD "" := by
  cases o <;> rfl

theorem bumpStatus_topLevel (stats : SemanticStats) (status : String) :
    (bumpStatus stats status).topLevelRuntimeChangedFiles =
      stats.topLevelRuntimeChangedFiles := by
  unfold bumpStatus
  split_ifs <;> rfl

/-- **C2**: for a class member present in both revisions whose base and head
printed texts are identical after comment removal (done by the printer) and
whitespace collapsing (`normalizeText`) — i.e. whose texts differ only in
whitespace and/or comments — the member-identity step records nothing: the
`changed_methods_by_class` accumulator is returned unchanged, so the member
also contributes nothing to `semanticChangedMethodsCount`. -/
theorem c2_formatting_only_member_unchanged (baseClass headClass : Option ClassModel)
    (identity : String) (acc : List (String × List String)) (bm hm : MemberModel)
    (hb : memberOfClass baseClass identity = some bm)
    (hh : memberOfClass headClass identity = some hm)
    (hov : bm.overloadTexts.map normalizeText = hm.overloadTexts.map normalizeText)
    (him : bm.implText.map normalizeText = hm.implText.map normalizeText) :
    processIdentity baseClass headClass identity acc = acc := by
  have hfp : getMemberFingerprint (memberOfClass baseClass identity) =
      getMemberFingerprint (memberOfClass headClass identity) := by
    rw [hb, hh]
    show "overloads:" ++ joinWith "\n" (bm.overloadTexts.map normalizeText) ++
        "\nimplementation:" ++ implFingerprint bm.implText =
      "overloads:" ++ joinWith "\n" (hm.overloadTexts.map normalizeText) ++
        "\nimplementation:" ++ implFingerprint hm.implText
    rw [hov, implFingerprint_map, implFingerprint_map, him]
  unfold processIdentity
  dsimp only
  rw [if_pos hfp]

def memberC2base : MemberModel :=
  { className := "MyPage", memberName := "open", identityType := "call",
    overloadTexts := [], implText := some "open() { return 1; }", callable := true }

def memberC2head : MemberModel :=
  { className := "MyPage", memberName := "open", identityType := "call",
    overloadTexts := [], implText := some "open() {  return   1; }", callable := true }

def classC2base : ClassModel :=
  { membersByIdentity := [("call:open", memberC2base)]
    callableMemberNames := ["open"]
    composedFieldClassByName := [] }

def classC2head : ClassModel :=
  { membersByIdentity := [("call:open", memberC2head)]
    callableMemberNames := ["open"]
    composedFieldClassByName := [] }

theorem c2_formatting_only_member_unchanged_witness :
    memberOfClass (some classC2base) "call:open" = some memberC2base ∧
    processIdentity (some classC2base) (some classC2head) "call:open"
      [("Other", ["x"])] = [("Other", ["x"])] :=
  ⟨by decide,
    c2_formatting_only_member_unchanged (some classC2base) (some classC2head) "call:open"
      [("Other", ["x"])] memberC2base memberC2head (by decide) (by decide) (by decide)
      (by decide)⟩

/-- **C8**: when a member's base and head fingerprints differ and its
identity is a non-callable field (of a truthy target class), the detector
records every callable member of that class, taken from both the base and
the head class models. -/
theorem c8_noncallable_field_expands (baseClass headClass : Option ClassModel)
    (identity : String) (acc : List (String × List String))
    (hfp : getMemberFingerprint (memberOfClass baseClass identity) ≠
      getMemberFingerprint (memberOfClass headClass identity))
    (hnc : ¬ (((memberOfClass headClass identity).map (fun x => x.callable)).getD false = true ∨
      ((memberOfClass baseClass identity).map (fun x => x.callable)).getD false = true))
    (hty : firstTruthy ((memberOfClass headClass identity).map (fun x => x.identityType))
      ((memberOfClass baseClass identity).map (fun x => x.identityType)) = "field")
    (htc : firstTruthy ((memberOfClass headClass identity).map (fun x => x.className))
      ((memberOfClass baseClass identity).map (fun x => x.className)) ≠ "") :
    processIdentity baseClass headClass identity acc =
      addCallableMembersFromClassModel headClass
        (firstTruthy ((memberOfClass headClass identity).map (fun x => x.className))
          ((memberOfClass baseClass identity).map (fun x => x.className)))
        (addCallableMembersFromClassModel baseClass
          (firstTruthy ((memberOfClass headClass identity).map (fun x => x.className))
            ((memberOfClass baseClass identity).map (fun x => x.className)))
          acc) ∧
    (∀ cm : ClassModel, (baseClass = some cm ∨ headClass = some cm) →
      ∀ n ∈ cm.callableMemberNames, n ≠ "" →
        memberRecorded (processIdentity baseClass headClass identity acc)
          (firstTruthy ((memberOfClass headClass identity).map (fun x => x.className))
            ((memberOfClass baseClass identity).map (fun x => x.className))) n) := by
  have heq : processIdentity baseClass headClass identity acc =
      addCallableMembersFromClassModel headClass
        (firstTruthy ((memberOfClass headClass identity).map (fun x => x.className))
          ((memberOfClass baseClass identity).map (fun x => x.className)))
        (addCallableMembersFromClassModel baseClass
          (firstTruthy ((memberOfClass headClass identity).map (fun x => x.className))
            ((memberOfClass baseClass identity).map (fun x => x.className)))
          acc) := by
    unfold processIdentity
    dsimp only
    rw [if_neg hfp, if_pos hnc, if_pos ⟨hty, htc⟩]
  refine ⟨heq, ?_⟩
  intro cm hcm n hn hn'
  rw [heq]
  rcases hcm with rfl | rfl
  · exact addCallableMembersFromClassModel_mono _ _ _ _ _
      (addCallableMembersFromClassModel_records cm _ _ _ hn htc hn')
  · exact addCallableMembersFromClassModel_records cm _ _ _ hn htc hn'

def memberC8urlBase : MemberModel :=
  { className := "MyPage", memberName := "url", identityType := "field",
    overloadTexts := [], implText := some "url = route('a')", callable := false }

def memberC8urlHead : MemberModel :=
  { className := "MyPage", memberName := "url", identityType := "field",
    overloadTexts := [], implText := some "url = route('b')", callable := false }

def memberC8open : MemberModel :=
  { className := "MyPage", memberName := "open", identityType := "call",
    overloadTexts := [], implText := some "open() { return this.url; }", callable := true }

def classC8base : ClassModel :=
  { membersByIdentity := [("field:url", memberC8urlBase), ("call:open", memberC8open)]
    callableMemberNames := ["open"]
    composedFieldClassByName := [] }

def classC8head : ClassModel :=
  { membersByIdentity := [("field:url", memberC8urlHead), ("call:open", memberC8open)]
    callableMemberNames := ["open"]
    composedFieldClassByName := [] }

theorem c8_noncallable_field_expands_witness :
    (getMemberFingerprint (memberOfClass (some classC8base) "field:url") ≠
      getMemberFingerprint (memberOfClass (some classC8head) "field:url")) ∧
    memberRecorded
      (processIdentity (some classC8base) (some classC8head) "field:url" [])
      "MyPage" "open" :=
  ⟨by decide,
    (c8_noncallable_field_expands (some classC8base) (some classC8head) "field:url" []
      (by decide) (by decide) (by decide) (by decide)).2 classC8base (Or.inl rfl) "open"
      (by decide) (by decide)⟩

/-- **C7**: type-only imports, type-only re-exports, interface declarations,
type-alias declarations and class declarations are excluded from the
top-level runtime fingerprint; and whenever the concatenated runtime
fingerprints of base and head differ (for an entry that is not skipped as
byte-identical), the per-entry processing increments
`topLevelRuntimeChangedFiles` and records every callable member of every
class defined in either revision in `changed_methods_by_class`. -/
theorem c7_toplevel_runtime_change (t : String) (nm : Option String)
    (members : List MemberDecl) (raw : String) (stmts : List Statement) (s : Statement)
    (acc : DetectorAcc) (entryStatus : String)
    (baseContent headContent : Option SourceFile) :
    isRuntimeStatement (.importDecl true true t) = false ∧
    isRuntimeStatement (.exportDecl true t) = false ∧
    isRuntimeStatement (.interfaceDecl t) = false ∧
    isRuntimeStatement (.typeAliasDecl t) = false ∧
    isRuntimeStatement (.classDecl nm members t) = false ∧
    (isRuntimeStatement s = false →
      getRuntimeFingerprint (some (buildFileModel ⟨raw, stmts ++ [s]⟩)) =
        getRuntimeFingerprint (some (buildFileModel ⟨raw, stmts⟩))) ∧
    (sameRawText baseContent headContent = false →
      getRuntimeFingerprint (baseContent.map buildFileModel) ≠
        getRuntimeFingerprint (headContent.map buildFileModel) →
      (processChangedEntry acc entryStatus (baseContent, headContent)).stats.topLevelRuntimeChangedFiles =
        acc.stats.topLevelRuntimeChangedFiles + 1 ∧
      (∀ fm : FileModel, (baseContent.map buildFileModel = some fm ∨
          headContent.map buildFileModel = some fm) →
        ∀ p ∈ fm.classModels, ∀ n ∈ p.2.callableMemberNames, p.1 ≠ "" → n ≠ "" →
          memberRecorded
            (processChangedEntry acc entryStatus (baseContent, headContent)).changedMethodsByClass
            p.1 n)) := by
  refine ⟨rfl, rfl, rfl, rfl, rfl, ?_, ?_⟩
  · intro hs
    unfold getRuntimeFingerprint buildFileModel
    dsimp only
    rw [List.filter_append]
    rw [show (List.filter isRuntimeStatement [s]) = [] from by simp [hs]]
    rw [List.append_nil]
  · intro hskip hfp
    have hstep : processChangedEntry acc entryStatus (baseContent, headContent) =
        { changedMethodsByClass :=
            (classNameUnion (baseContent.map buildFileModel) (headContent.map buildFileModel)).foldl
              (fun a className => processClass (baseContent.map buildFileModel)
                (headContent.map buildFileModel) className a)
              (addAllCallableMembers (headContent.map buildFileModel)
                (addAllCallableMembers (baseContent.map buildFileModel)
                  acc.changedMethodsByClass))
          stats := { bumpStatus acc.stats entryStatus with
            topLevelRuntimeChangedFiles :=
              (bumpStatus acc.stats entryStatus).topLevelRuntimeChangedFiles + 1 } } := by
      unfold processChangedEntry
      dsimp only
      rw [hskip]
      rw [if_neg Bool.false_ne_true]
      rw [if_pos hfp]
    constructor
    · rw [hstep]
      simp [bumpStatus_topLevel]
    · intro fm hfm p hp n hn hc hn'
      rw [hstep]
      dsimp only
      apply foldl_processClass_mono
      rcases hfm with hb | hh
      · exact addAllCallableMembers_mono _ _ _ _
          (hb ▸ addAllCallableMembers_records fm _ p n hp hn hc hn')
      · exact hh ▸ addAllCallableMembers_records fm _ p n hp hn hc hn'

def fileC7base : SourceFile :=
  { rawText := "const a = 1;", statements := [Statement.otherStmt "const a = 1;"] }

def fileC7head : SourceFile :=
  { rawText := "const a = 2;"
    statements := [Statement.otherStmt "const a = 2;",
      Statement.classDecl (some "MyPage")
        [MemberDecl.methodD (some "open") true "open() { return 2; }"]
        "class MyPage { open() { return 2; } }"] }

theorem c7_toplevel_runtime_change_witness :
    sameRawText (some fileC7base) (some fileC7head) = false ∧
    (getRuntimeFingerprint ((some fileC7base).map buildFileModel) ≠
      getRuntimeFingerprint ((some fileC7head).map buildFileModel)) ∧
    (processChangedEntry ⟨[], emptySemanticStats⟩ "M"
        (some fileC7base, some fileC7head)).stats.topLevelRuntimeChangedFiles =
      emptySemanticStats.topLevelRuntimeChangedFiles + 1 :=
  ⟨by decide, by decide,
    ((c7_toplevel_runtime_change "" none [] "" [] (Statement.otherStmt "")
      ⟨[], emptySemanticStats⟩ "M" (some fileC7base) (some fileC7head)).2.2.2.2.2.2
      (by decide) (by decide)).1⟩

/-! ### Stage B support: visitor monotonicity and the alias invariant -/

theorem tryRegisterAlias_precise (aliasName : Option String) (className : String)
    (methodName : Option String) (isUncertain : Bool) (s : MatchState) :
    (tryRegisterAlias aliasName className methodName isUncertain s).preciseMatches =
      s.preciseMatches := by
  unfold tryRegisterAlias
  rcases truthyOpt aliasName with _ | a
  · rfl
  · dsimp only
    split_ifs <;> rfl

theorem tryRegisterAlias_uncertainCount (aliasName : Option String) (className : String)
    (methodName : Option String) (isUncertain : Bool) (s : MatchState) :
    (tryRegisterAlias aliasName className methodName isUncertain s).uncertainCallSites =
      s.uncertainCallSites := by
  unfold tryRegisterAlias
  rcases truthyOpt aliasName with _ | a
  · rfl
  · dsimp only
    split_ifs <;> rfl

theorem foldl_preserves_precise {β : Type} (f : MatchState → β → MatchState)
    (hf : ∀ st b, (f st b).preciseMatches = st.preciseMatches) (l : List β)
    (s : MatchState) : (l.foldl f s).preciseMatches = s.preciseMatches := by
  induction l generalizing s with
  | nil => rfl
  | cons b rest ih => rw [List.foldl_cons, ih, hf]

theorem registerAliasesStep_precise (fv : List (String × String)) (n : Node)
    (s : MatchState) :
    (registerAliasesStep fv n s).preciseMatches = s.preciseMatches := by
  cases n <;> try rfl
  case varDecl b init =>
    cases b <;> try rfl
    case bid name =>
      cases init <;> try rfl
      case someN e =>
        cases e <;> try rfl
        case propAccess obj m =>
          simp only [registerAliasesStep]
          cases getRootIdentifierName obj <;> try rfl
          case some root =>
            dsimp only
            cases lookupTruthy fv root <;> try rfl
            case some cls =>
              dsimp only
              exact tryRegisterAlias_precise _ _ _ _ _
        case elemAccess obj arg =>
          simp only [registerAliasesStep]
          cases getRootIdentifierName obj <;> try rfl
          case some root =>
            dsimp only
            cases lookupTruthy fv root <;> try rfl
            case some cls =>
              dsimp only
              exact tryRegisterAlias_precise _ _ _ _ _
    case bobj elems =>
      cases init <;> try rfl
      case someN e =>
        cases e <;> try rfl
        case identN v =>
          simp only [registerAliasesStep]
          cases lookupTruthy fv v <;> try rfl
          case some cls =>
            dsimp only
            apply foldl_preserves_precise
            intro st b
            rcases b with ⟨_, _⟩
            exact tryRegisterAlias_precise _ _ _ _ _

theorem identCallStep_precise_mono (imp : List (String × List String)) (n : Node)
    (s : MatchState) (x : String) (h : x ∈ s.preciseMatches) :
    x ∈ (identCallStep imp n s).preciseMatches := by
  cases n <;> try exact h
  case callN callee args =>
    cases callee <;> try exact h
    case identN f =>
      simp only [identCallStep]
      cases alookup s.aliasCalls f <;> try exact h
      case some info =>
        dsimp only
        cases info.methodName <;> try exact h
        case some m =>
          dsimp only
          split_ifs
          · exact mem_insertSet_of_mem _ h
          · exact h

theorem memberCallStep_precise_mono (fv : List (String × String))
    (imp : List (String × List String)) (n : Node) (s : MatchState) (x : String)
    (h : x ∈ s.preciseMatches) : x ∈ (memberCallStep fv imp n s).preciseMatches := by
  cases n <;> try exact h
  case callN callee args =>
    cases callee <;> try exact h
    case propAccess obj m =>
      simp only [memberCallStep]
      cases (getRootIdentifierName obj).bind (lookupTruthy fv) <;> try exact h
      case some cls =>
        dsimp only
        split_ifs
        · exact h
        · exact mem_insertSet_of_mem _ h
        · exact h
    case elemAccess obj arg =>
      simp only [memberCallStep]
      cases (getRootIdentifierName obj).bind (lookupTruthy fv) <;> try exact h
      case some cls =>
        dsimp only
        cases getLiteralName arg <;> try exact h
        case some m =>
          dsimp only
          split_ifs
          · exact h
          · exact mem_insertSet_of_mem _ h
          · exact h

theorem matchStep_precise_mono (fv : List (String × String))
    (imp : List (String × List String)) (n : Node) (s : MatchState) (x : String)
    (h : x ∈ s.preciseMatches) : x ∈ (matchStep fv imp n s).preciseMatches := by
  unfold matchStep
  apply memberCallStep_precise_mono
  apply identCallStep_precise_mono
  rw [registerAliasesStep_precise]
  exact h
mutual
theorem visitMatch_precise_mono (fv : List (String × String))
    (imp : List (String × List String)) :
    ∀ (n : Node) (s : MatchState) (x : String),
      x ∈ s.preciseMatches → x ∈ (visitMatch fv imp n s).preciseMatches
  | Node.identN _, s, x, h => matchStep_precise_mono fv imp _ s x h
  | Node.strLitN _, s, x, h => matchStep_precise_mono fv imp _ s x h
  | Node.thisN, s, x, h => matchStep_precise_mono fv imp _ s x h
  | Node.propAccess obj _, s, x, h =>
    visitMatch_precise_mono fv imp obj _ x (matchStep_precise_mono fv imp _ s x h)
  | Node.elemAccess obj arg, s, x, h =>
    visitMatch_precise_mono fv imp arg _ x
      (visitMatch_precise_mono fv imp obj _ x (matchStep_precise_mono fv imp _ s x h))
  | Node.parenN e, s, x, h =>
    visitMatch_precise_mono fv imp e _ x (matchStep_precise_mono fv imp _ s x h)
  | Node.callN callee args, s, x, h =>
    visitMatchList_precise_mono fv imp args _ x
      (visitMatch_precise_mono fv imp callee _ x (matchStep_precise_mono fv imp _ s x h))
  | Node.varDecl _ init, s, x, h =>
    visitMatchOpt_precise_mono fv imp init _ x (matchStep_precise_mono fv imp _ s x h)
  | Node.arrowFn _ body, s, x, h =>
    visitMatch_precise_mono fv imp body _ x (matchStep_precise_mono fv imp _ s x h)
  | Node.funcExpr _ body, s, x, h =>
    visitMatch_precise_mono fv imp body _ x (matchStep_precise_mono fv imp _ s x h)
  | Node.funcDecl _ body, s, x, h =>
    visitMatch_precise_mono fv imp body _ x (matchStep_precise_mono fv imp _ s x h)
  | Node.blockN stmts, s, x, h =>
    visitMatchList_precise_mono fv imp stmts _ x (matchStep_precise_mono fv imp _ s x h)
  | Node.otherN children, s, x, h =>
    visitMatchList_precise_mono fv imp children _ x (matchStep_precise_mono fv imp _ s x h)

theorem visitMatchList_precise_mono (fv : List (String × String))
    (imp : List (String × List String)) :
    ∀ (l : NodeList) (s : MatchState) (x : String),
      x ∈ s.preciseMatches → x ∈ (visitMatchList fv imp l s).preciseMatches
  | NodeList.nilN, _, _, h => h
  | NodeList.consN n rest, s, x, h =>
    visitMatchList_precise_mono fv imp rest _ x (visitMatch_precise_mono fv imp n s x h)

theorem visitMatchOpt_precise_mono (fv : List (String × String))
    (imp : List (String × List String)) :
    ∀ (o : OptionNode) (s : MatchState) (x : String),
      x ∈ s.preciseMatches → x ∈ (visitMatchOpt fv imp o s).preciseMatches
  | OptionNode.noneN, _, _, h => h
  | OptionNode.someN n, s, x, h => visitMatch_precise_mono fv imp n s x h
end

/-- **C5**: in Stage B, a call `var.<name>(…)` or `var["<name>"](…)`
against a fixture variable whose object chain depth is at most 2 and whose
name is impacted for the variable's class is recorded as a precise match
(and stays recorded through the rest of the traversal); a call whose chain
depth exceeds 2 is counted as one uncertain call site and adds nothing to
the precise matches. -/
theorem c5_chain_depth_classification (fv : List (String × String))
    (imp : List (String × List String)) (obj arg : Node) (m className : String)
    (args : NodeList) (s : MatchState)
    (hroot : (getRootIdentifierName obj).bind (lookupTruthy fv) = some className) :
    ((getAccessChainDepth obj ≤ maxPreciseChainDepth) →
      m ∈ (alookup imp className).getD [] →
      (memberCallStep fv imp (.callN (.propAccess obj m) args) s).preciseMatches =
          insertSet (className ++ "." ++ m) s.preciseMatches ∧
        (memberCallStep fv imp (.callN (.propAccess obj m) args) s).uncertainCallSites =
          s.uncertainCallSites ∧
        (className ++ "." ++ m) ∈
          (visitMatch fv imp (.callN (.propAccess obj m) args) s).preciseMatches) ∧
    (getLiteralName arg = some m →
      getAccessChainDepth obj ≤ maxPreciseChainDepth →
      m ∈ (alookup imp className).getD [] →
      (memberCallStep fv imp (.callN (.elemAccess obj arg) args) s).preciseMatches =
          insertSet (className ++ "." ++ m) s.preciseMatches ∧
        (className ++ "." ++ m) ∈
          (visitMatch fv imp (.callN (.elemAccess obj arg) args) s).preciseMatches) ∧
    (getAccessChainDepth obj > maxPreciseChainDepth →
      memberCallStep fv imp (.callN (.propAccess obj m) args) s =
        { s with uncertainCallSites := s.uncertainCallSites + 1 }) ∧
    (getLiteralName arg = some m →
      getAccessChainDepth obj > maxPreciseChainDepth →
      memberCallStep fv imp (.callN (.elemAccess obj arg) args) s =
        { s with uncertainCallSites := s.uncertainCallSites + 1 }) := by
  have hstepP : ∀ st : MatchState, memberCallStep fv imp (.callN (.propAccess obj m) args) st =
      (if getAccessChainDepth obj > maxPreciseChainDepth then
        { st with uncertainCallSites := st.uncertainCallSites + 1 }
      else if m ∈ (alookup imp className).getD [] then
        { st with preciseMatches := insertSet (className ++ "." ++ m) st.preciseMatches }
      else st) := by
    intro st
    simp only [memberCallStep]
    rw [hroot]
  have hstepE : ∀ st : MatchState, getLiteralName arg = some m →
      memberCallStep fv imp (.callN (.elemAccess obj arg) args) st =
      (if getAccessChainDepth obj > maxPreciseChainDepth then
        { st with uncertainCallSites := st.uncertainCallSites + 1 }
      else if m ∈ (alookup imp className).getD [] then
        { st with preciseMatches := insertSet (className ++ "." ++ m) st.preciseMatches }
      else st) := by
    intro st hlit
    simp only [memberCallStep]
    rw [hroot]
    dsimp only
    rw [hlit]
  refine ⟨?_, ?_, ?_, ?_⟩
  · intro hdepth hmem
    have hnd : ¬ getAccessChainDepth obj > maxPreciseChainDepth := by omega
    refine ⟨?_, ?_, ?_⟩
    · rw [hstepP, if_neg hnd, if_pos hmem]
    · rw [hstepP, if_neg hnd, if_pos hmem]
    · rw [visitMatch]
      apply visitMatchList_precise_mono
      apply visitMatch_precise_mono
      unfold matchStep
      rw [hstepP, if_neg hnd, if_pos hmem]
      exact mem_insertSet_self _ _
  · intro hlit hdepth hmem
    have hnd : ¬ getAccessChainDepth obj > maxPreciseChainDepth := by omega
    refine ⟨?_, ?_⟩
    · rw [hstepE _ hlit, if_neg hnd, if_pos hmem]
    · rw [visitMatch]
      apply visitMatchList_precise_mono
      apply visitMatch_precise_mono
      unfold matchStep
      rw [hstepE _ hlit, if_neg hnd, if_pos hmem]
      exact mem_insertSet_self _ _
  · intro hdeep
    rw [hstepP, if_pos hdeep]
  · intro hlit hdeep
    rw [hstepE _ hlit, if_pos hdeep]

def treeC5 : Node :=
  Node.callN (Node.propAccess (Node.identN "myPage") "open") NodeList.nilN

theorem c5_chain_depth_classification_witness :
    ((getRootIdentifierName (Node.identN "myPage")).bind
      (lookupTruthy [("myPage", "MyPage")]) = some "MyPage") ∧
    ("MyPage" ++ "." ++ "open") ∈
      (visitMatch [("myPage", "MyPage")] [("MyPage", ["open"])] treeC5
        ⟨[], 0, []⟩).preciseMatches :=
  ⟨by decide,
    ((c5_chain_depth_classification [("myPage", "MyPage")] [("MyPage", ["open"])]
      (Node.identN "myPage") (Node.strLitN "x") "open" "MyPage" NodeList.nilN ⟨[], 0, []⟩
      (by decide)).1 (by decide) (by decide)).2.2⟩

/-! ### C6 support: every registered alias is uncertain -/

/-- Invariant of the Stage B visitor: every alias registered so far carries
`isUncertain = true`. -/
def aliasesUncertain (s : MatchState) : Prop :=
  ∀ p ∈ s.aliasCalls, p.2.isUncertain = true

theorem tryRegisterAlias_uncertain (aliasName : Option String) (className : String)
    (methodName : Option String) (s : MatchState) (h : aliasesUncertain s) :
    aliasesUncertain (tryRegisterAlias aliasName className methodName true s) := by
  unfold tryRegisterAlias
  cases truthyOpt aliasName with
  | none => exact h
  | some a =>
    dsimp only
    split_ifs with hc
    · exact h
    · intro p hp
      rcases mem_aset _ _ _ _ hp with hm | heq
      · exact h p hm
      · rw [heq]
        rfl

theorem identCallStep_aliases (imp : List (String × List String)) (n : Node)
    (s : MatchState) : (identCallStep imp n s).aliasCalls = s.aliasCalls := by
  cases n <;> try rfl
  case callN callee args =>
    cases callee <;> try rfl
    case identN f =>
      simp only [identCallStep]
      cases alookup s.aliasCalls f <;> try rfl
      case some info =>
        dsimp only
        cases info.methodName <;> try rfl
        case some m =>
          dsimp only
          split_ifs <;> rfl

theorem memberCallStep_aliases (fv : List (String × String))
    (imp : List (String × List String)) (n : Node) (s : MatchState) :
    (memberCallStep fv imp n s).aliasCalls = s.aliasCalls := by
  cases n <;> try rfl
  case callN callee args =>
    cases callee <;> try rfl
    case propAccess obj m =>
      simp only [memberCallStep]
      cases (getRootIdentifierName obj).bind (lookupTruthy fv) <;> try rfl
      case some cls =>
        dsimp only
        split_ifs <;> rfl
    case elemAccess obj arg =>
      simp only [memberCallStep]
      cases (getRootIdentifierName obj).bind (lookupTruthy fv) <;> try rfl
      case some cls =>
        dsimp only
        cases getLiteralName arg <;> try rfl
        case some m =>
          dsimp only
          split_ifs <;> rfl

theorem foldl_preserves_aliasesUncertain {β : Type} (f : MatchState → β → MatchState)
    (hf : ∀ st b, aliasesUncertain st → aliasesUncertain (f st b)) (l : List β)
    (s : MatchState) (h : aliasesUncertain s) : aliasesUncertain (l.foldl f s) := by
  induction l generalizing s with
  | nil => exact h
  | cons b rest ih => exact ih _ (hf _ _ h)

theorem registerAliasesStep_uncertain (fv : List (String × String)) (n : Node)
    (s : MatchState) (h : aliasesUncertain s) :
    aliasesUncertain (registerAliasesStep fv n s) := by
  cases n <;> try exact h
  case varDecl b init =>
    cases b <;> try exact h
    case bid name =>
      cases init <;> try exact h
      case someN e =>
        cases e <;> try exact h
        case propAccess obj m =>
          simp only [registerAliasesStep]
          cases getRootIdentifierName obj <;> try exact h
          case some root =>
            dsimp only
            cases lookupTruthy fv root <;> try exact h
            case some cls =>
              dsimp only
              exact tryRegisterAlias_uncertain _ _ _ _ h
        case elemAccess obj arg =>
          simp only [registerAliasesStep]
          cases getRootIdentifierName obj <;> try exact h
          case some root =>
            dsimp only
            cases lookupTruthy fv root <;> try exact h
            case some cls =>
              dsimp only
              exact tryRegisterAlias_uncertain _ _ _ _ h
    case bobj elems =>
      cases init <;> try exact h
      case someN e =>
        cases e <;> try exact h
        case identN v =>
          simp only [registerAliasesStep]
          cases lookupTruthy fv v <;> try exact h
          case some cls =>
            dsimp only
            apply foldl_preserves_aliasesUncertain
            · intro st b hb
              rcases b with ⟨_, _⟩
              exact tryRegisterAlias_uncertain _ _ _ _ hb
            · exact h

theorem matchStep_uncertain (fv : List (String × String))
    (imp : List (String × List String)) (n : Node) (s : MatchState)
    (h : aliasesUncertain s) : aliasesUncertain (matchStep fv imp n s) := by
  unfold matchStep
  unfold aliasesUncertain
  rw [memberCallStep_aliases, identCallStep_aliases]
  exact registerAliasesStep_uncertain fv n s h

mutual
theorem visitMatch_uncertain (fv : List (String × String))
    (imp : List (String × List String)) :
    ∀ (n : Node) (s : MatchState), aliasesUncertain s →
      aliasesUncertain (visitMatch fv imp n s)
  | Node.identN _, s, h => matchStep_uncertain fv imp _ s h
  | Node.strLitN _, s, h => matchStep_uncertain fv imp _ s h
  | Node.thisN, s, h => matchStep_uncertain fv imp _ s h
  | Node.propAccess obj _, s, h =>
    visitMatch_uncertain fv imp obj _ (matchStep_uncertain fv imp _ s h)
  | Node.elemAccess obj arg, s, h =>
    visitMatch_uncertain fv imp arg _
      (visitMatch_uncertain fv imp obj _ (matchStep_uncertain fv imp _ s h))
  | Node.parenN e, s, h =>
    visitMatch_uncertain fv imp e _ (matchStep_uncertain fv imp _ s h)
  | Node.callN callee args, s, h =>
    visitMatchList_uncertain fv imp args _
      (visitMatch_uncertain fv imp callee _ (matchStep_uncertain fv imp _ s h))
  | Node.varDecl _ init, s, h =>
    visitMatchOpt_uncertain fv imp init _ (matchStep_uncertain fv imp _ s h)
  | Node.arrowFn _ body, s, h =>
    visitMatch_uncertain fv imp body _ (matchStep_uncertain fv imp _ s h)
  | Node.funcExpr _ body, s, h =>
    visitMatch_uncertain fv imp body _ (matchStep_uncertain fv imp _ s h)
  | Node.funcDecl _ body, s, h =>
    visitMatch_uncertain fv imp body _ (matchStep_uncertain fv imp _ s h)
  | Node.blockN stmts, s, h =>
    visitMatchList_uncertain fv imp stmts _ (matchStep_uncertain fv imp _ s h)
  | Node.otherN children, s, h =>
    visitMatchList_uncertain fv imp children _ (matchStep_uncertain fv imp _ s h)

theorem visitMatchList_uncertain (fv : List (String × String))
    (imp : List (String × List String)) :
    ∀ (l : NodeList) (s : MatchState), aliasesUncertain s →
      aliasesUncertain (visitMatchList fv imp l s)
  | NodeList.nilN, _, h => h
  | NodeList.consN n rest, s, h =>
    visitMatchList_uncertain fv imp rest _ (visitMatch_uncertain fv imp n s h)

theorem visitMatchOpt_uncertain (fv : List (String × String))
    (imp : List (String × List String)) :
    ∀ (o : OptionNode) (s : MatchState), aliasesUncertain s →
      aliasesUncertain (visitMatchOpt fv imp o s)
  | OptionNode.noneN, _, h => h
  | OptionNode.someN n, s, h => visitMatch_uncertain fv imp n s h
end

theorem truthyOpt_some_of_ne (s : String) (h : s ≠ "") : truthyOpt (some s) = some s := by
  simp [truthyOpt, h]

theorem lookupTruthy_ne_empty (m : List (String × String)) (k c : String)
    (h : lookupTruthy m k = some c) : c ≠ "" := by
  unfold lookupTruthy truthyOpt at h
  cases halo : alookup m k with
  | none => rw [halo] at h; simp at h
  | some v =>
    rw [halo] at h
    dsimp only at h
    split_ifs at h with hv
    simp only [Option.some.injEq] at h
    subst h
    exact hv

/-- **C6**: alias creation `const f = var.<name>` over a fixture variable,
and destructuring `const { <name> } = var`, register the alias with
`isUncertain = true`; the visitor keeps every registered alias uncertain;
and a subsequent call `f(…)` on a registered alias is counted as exactly one
uncertain call site and never as a precise match. -/
theorem c6_alias_and_destructure_uncertain (fv : List (String × String))
    (imp : List (String × List String)) (f v m x className : String) (obj : Node)
    (args : NodeList) (s : MatchState) :
    (∀ n : Node, aliasesUncertain s → aliasesUncertain (visitMatch fv imp n s)) ∧
    ((getRootIdentifierName obj).bind (lookupTruthy fv) = some className → f ≠ "" →
      ∃ info : AliasInfo,
        alookup (registerAliasesStep fv
          (.varDecl (.bid f) (.someN (.propAccess obj m))) s).aliasCalls f = some info ∧
        info.className = className ∧ info.isUncertain = true) ∧
    (lookupTruthy fv v = some className → x ≠ "" →
      ∃ info : AliasInfo,
        alookup (registerAliasesStep fv
          (.varDecl (.bobj (BindingElemList.consB (BindingElem.belem none (BindingName.bid x))
            BindingElemList.nilB)) (.someN (.identN v))) s).aliasCalls x = some info ∧
        info.isUncertain = true) ∧
    (aliasesUncertain s → ∀ info : AliasInfo, alookup s.aliasCalls f = some info →
      identCallStep imp (.callN (.identN f) args) s =
        { s with uncertainCallSites := s.uncertainCallSites + 1 }) := by
  refine ⟨fun n h => visitMatch_uncertain fv imp n s h, ?_, ?_, ?_⟩
  · intro hroot hf
    rw [Option.bind_eq_some] at hroot
    obtain ⟨root, hr, hcl⟩ := hroot
    have hcls := lookupTruthy_ne_empty fv root className hcl
    simp only [registerAliasesStep]
    rw [hr]
    dsimp only
    rw [hcl]
    dsimp only
    unfold tryRegisterAlias
    rw [truthyOpt_some_of_ne f hf]
    dsimp only
    rw [if_neg hcls]
    exact ⟨_, alookup_aset_self _ _ _, rfl, by simp⟩
  · intro hv hx
    have hcls := lookupTruthy_ne_empty fv v className hv
    simp only [registerAliasesStep]
    rw [hv]
    dsimp only [BindingElemList.toList, List.foldl_cons, List.foldl_nil]
    unfold tryRegisterAlias
    dsimp only
    rw [truthyOpt_some_of_ne x hx]
    dsimp only
    rw [if_neg hcls]
    exact ⟨_, alookup_aset_self _ _ _, by simp⟩
  · intro hinv info hlook
    have hu : info.isUncertain = true := by
      have := hinv _ (alookup_mem _ _ _ hlook)
      exact this
    simp only [identCallStep]
    rw [hlook]
    dsimp only
    cases info.methodName with
    | none => rfl
    | some mn =>
      dsimp only
      rw [if_neg]
      intro hc
      rw [hu] at hc
      simp at hc

def stateC6 : MatchState :=
  { preciseMatches := [], uncertainCallSites := 0
    aliasCalls := [("f", ⟨"MyPage", some "open", true⟩)] }

theorem c6_alias_and_destructure_uncertain_witness :
    aliasesUncertain stateC6 ∧
    identCallStep [("MyPage", ["open"])] (Node.callN (Node.identN "f") NodeList.nilN)
        stateC6 =
      { stateC6 with uncertainCallSites := stateC6.uncertainCallSites + 1 } :=
  ⟨by unfold aliasesUncertain; decide,
    (c6_alias_and_destructure_uncertain [("myPage", "MyPage")] [("MyPage", ["open"])]
      "f" "v" "m" "x" "MyPage" Node.thisN NodeList.nilN stateC6).2.2.2
      (by unfold aliasesUncertain; decide) ⟨"MyPage", some "open", true⟩ (by decide)⟩

/-! ### C3 support: selection-bias monotonicity of the Stage B filter -/

theorem collectMatches_precise_bias (sourceFile : Node) (fv : List (String × String))
    (imp : List (String × List String)) (b1 b2 : String) :
    (collectImpactedMethodMatchesInSpec sourceFile fv imp b1).preciseMatches =
      (collectImpactedMethodMatchesInSpec sourceFile fv imp b2).preciseMatches := rfl

theorem collectMatches_uncertain_bias (sourceFile : Node) (fv : List (String × String))
    (imp : List (String × List String)) (b1 b2 : String) :
    (collectImpactedMethodMatchesInSpec sourceFile fv imp b1).uncertainCallSites =
      (collectImpactedMethodMatchesInSpec sourceFile fv imp b2).uncertainCallSites := rfl

theorem collectMatches_balanced (sourceFile : Node) (fv : List (String × String))
    (imp : List (String × List String)) :
    collectImpactedMethodMatchesInSpec sourceFile fv imp "balanced" =
      collectImpactedMethodMatchesInSpec sourceFile fv imp "fail-closed" := by
  unfold collectImpactedMethodMatchesInSpec
  simp [show ¬ (("balanced" : String) = "fail-open") from by decide,
    show ¬ (("fail-closed" : String) = "fail-open") from by decide]

theorem collectMatches_closed_not_uncertain (sourceFile : Node)
    (fv : List (String × String)) (imp : List (String × List String)) :
    (collectImpactedMethodMatchesInSpec sourceFile fv imp "fail-closed").shouldIncludeByUncertain
      = false := by
  unfold collectImpactedMethodMatchesInSpec
  simp [show ¬ (("fail-closed" : String) = "fail-open") from by decide]

theorem filterStep_balanced_eq (direct always : List String)
    (fkc : List (String × String)) (fk : List String)
    (imp : List (String × List String)) (readSpec : String → Option Node) :
    filterStep direct always fkc fk imp "balanced" readSpec =
      filterStep direct always fkc fk imp "fail-closed" readSpec := by
  funext st spec
  unfold filterStep
  simp only [collectMatches_balanced]

theorem filterStep_sublist (direct always : List String) (fkc : List (String × String))
    (fk : List String) (imp : List (String × List String))
    (readSpec : String → Option Node) (stC stO : FilterState) (spec : String)
    (h : stC.filtered.Sublist stO.filtered) :
    (filterStep direct always fkc fk imp "fail-closed" readSpec stC spec).filtered.Sublist
      (filterStep direct always fkc fk imp "fail-open" readSpec stO spec).filtered := by
  unfold filterStep
  by_cases h1 : spec ∈ direct
  · simp only [if_pos h1]
    exact h.append (List.Sublist.refl [spec])
  · simp only [if_neg h1]
    by_cases h2 : spec ∈ always
    · simp only [if_pos h2]
      exact h.append (List.Sublist.refl [spec])
    · simp only [if_neg h2]
      cases hr : readSpec spec with
      | none =>
        dsimp only
        exact h.append (List.Sublist.refl [spec])
      | some ast =>
        dsimp only
        by_cases h3 : extractFixtureVariablesFromSpecAst ast fkc fk = []
        · simp only [if_pos h3]
          exact h.append (List.Sublist.refl [spec])
        · simp only [if_neg h3]
          by_cases h4 : (collectImpactedMethodMatchesInSpec ast
              (extractFixtureVariablesFromSpecAst ast fkc fk) imp
              "fail-closed").preciseMatches ≠ []
          · have h4o : (collectImpactedMethodMatchesInSpec ast
                (extractFixtureVariablesFromSpecAst ast fkc fk) imp
                "fail-open").preciseMatches ≠ [] := by
              rw [collectMatches_precise_bias ast _ imp "fail-open" "fail-closed"]
              exact h4
            rw [if_pos h4, if_pos h4o]
            exact h.append (List.Sublist.refl [spec])
          · have h4o : ¬ (collectImpactedMethodMatchesInSpec ast
                (extractFixtureVariablesFromSpecAst ast fkc fk) imp
                "fail-open").preciseMatches ≠ [] := by
              rw [collectMatches_precise_bias ast _ imp "fail-open" "fail-closed"]
              exact h4
            have hcu : ¬ ((collectImpactedMethodMatchesInSpec ast
                (extractFixtureVariablesFromSpecAst ast fkc fk) imp
                "fail-closed").shouldIncludeByUncertain = true) := by
              rw [collectMatches_closed_not_uncertain]; exact Bool.false_ne_true
            rw [if_neg h4, if_neg h4o, if_neg hcu]
            by_cases h5 : (collectImpactedMethodMatchesInSpec ast
                (extractFixtureVariablesFromSpecAst ast fkc fk) imp
                "fail-open").shouldIncludeByUncertain = true
            · rw [if_pos h5]
              dsimp only
              exact h.trans (List.sublist_append_left _ _)
            · rw [if_neg h5]
              exact h

theorem foldl_filterStep_sublist (specs : List String) (direct always : List String)
    (fkc : List (String × String)) (fk : List String)
    (imp : List (String × List String)) (readSpec : String → Option Node)
    (stC stO : FilterState) (h : stC.filtered.Sublist stO.filtered) :
    (specs.foldl (filterStep direct always fkc fk imp "fail-closed" readSpec) stC).filtered.Sublist
      (specs.foldl (filterStep direct always fkc fk imp "fail-open" readSpec) stO).filtered := by
  induction specs generalizing stC stO with
  | nil => exact h
  | cons spec rest ih =>
    rw [List.foldl_cons, List.foldl_cons]
    exact ih _ _ (filterStep_sublist _ _ _ _ _ _ _ _ _ h)

theorem filterSpecs_bias_mono (selected direct always : List String)
    (fkc : List (String × String)) (fk : List String)
    (imp : List (String × List String)) (readSpec : String → Option Node) :
    (∀ s ∈ (filterSpecsByImpactedMethods selected direct always fkc fk imp
        "fail-closed" readSpec).filteredSpecs,
      s ∈ (filterSpecsByImpactedMethods selected direct always fkc fk imp
        "fail-open" readSpec).filteredSpecs) ∧
    (filterSpecsByImpactedMethods selected direct always fkc fk imp
      "fail-closed" readSpec).filteredSpecs.length ≤
      (filterSpecsByImpactedMethods selected direct always fkc fk imp
        "fail-open" readSpec).filteredSpecs.length ∧
    filterSpecsByImpactedMethods selected direct always fkc fk imp "balanced" readSpec =
      filterSpecsByImpactedMethods selected direct always fkc fk imp
        "fail-closed" readSpec := by
  have hsub : ((List.foldl (filterStep direct always fkc fk imp "fail-closed" readSpec)
      ⟨[], 0, 0, [], 0, []⟩ selected).filtered).Sublist
      ((List.foldl (filterStep direct always fkc fk imp "fail-open" readSpec)
      ⟨[], 0, 0, [], 0, []⟩ selected).filtered) :=
    foldl_filterStep_sublist selected _ _ _ _ _ _ _ _ (List.Sublist.refl [])
  unfold filterSpecsByImpactedMethods
  split_ifs with hsel himp
  · exact ⟨fun s hs => hs, le_rfl, rfl⟩
  · exact ⟨fun s hs => hs, le_rfl, rfl⟩
  · refine ⟨?_, ?_, ?_⟩
    · intro s hs
      dsimp only at hs ⊢
      rw [mem_insSort] at hs ⊢
      exact hsub.subset hs
    · dsimp only
      rw [length_insSort, length_insSort]
      exact hsub.length_le
    · dsimp only
      rw [filterStep_balanced_eq]

theorem mainResult_bias_mono (cfg : AnalyzeConfig) (world : AnalyzeWorld)
    (cer : ChangedEntriesResult) (changedPomEntries : List Entry)
    (directChangedSpecFiles : List String) (globalWatch : GlobalWatchResult) :
    (∀ s ∈ (mainResult cfg world "fail-closed" cer changedPomEntries
        directChangedSpecFiles globalWatch).selectedSpecs,
      s ∈ (mainResult cfg world "fail-open" cer changedPomEntries
        directChangedSpecFiles globalWatch).selectedSpecs) ∧
    (mainResult cfg world "fail-closed" cer changedPomEntries
      directChangedSpecFiles globalWatch).selectedSpecs.length ≤
      (mainResult cfg world "fail-open" cer changedPomEntries
        directChangedSpecFiles globalWatch).selectedSpecs.length ∧
    (mainResult cfg world "balanced" cer changedPomEntries
      directChangedSpecFiles globalWatch).selectedSpecs =
      (mainResult cfg world "fail-closed" cer changedPomEntries
        directChangedSpecFiles globalWatch).selectedSpecs := by
  simp only [mainResult]
  refine ⟨(filterSpecs_bias_mono _ _ _ _ _ _ _).1,
    (filterSpecs_bias_mono _ _ _ _ _ _ _).2.1, ?_⟩
  rw [(filterSpecs_bias_mono _ _ _ _ _ _ _).2.2]

set_option maxHeartbeats 1000000 in
/-- C3: for a fixed repository snapshot and configuration differing only in
`selectionBias`, every spec selected under "fail-closed" is also selected under
"fail-open" (so the fail-open selection is at least as large), and "balanced"
selects exactly the same specs as "fail-closed". -/
theorem c3_bias_monotonicity (cfg : AnalyzeConfig) (world : AnalyzeWorld) :
    (∀ s ∈ (analyzeCoreWithBias cfg world "fail-closed").selectedSpecs,
        s ∈ (analyzeCoreWithBias cfg world "fail-open").selectedSpecs) ∧
    (analyzeCoreWithBias cfg world "fail-closed").selectedSpecs.length ≤
      (analyzeCoreWithBias cfg world "fail-open").selectedSpecs.length ∧
    (analyzeCoreWithBias cfg world "balanced").selectedSpecs =
      (analyzeCoreWithBias cfg world "fail-closed").selectedSpecs := by
  simp only [analyzeCoreWithBias]
  split_ifs with h1 h2
  · exact ⟨fun s hs => hs, le_rfl, rfl⟩
  · exact ⟨fun s hs => hs, le_rfl, rfl⟩
  · exact mainResult_bias_mono _ _ _ _ _ _

/-! ### C1 support: the force-all branch of the pipeline -/

theorem evaluateGlobalWatch_matched_nonempty (repoRoot : String) (entries : List Entry)
    (patterns closureAbs : List String) (e : Entry) (he : e ∈ entries)
    (c : String) (hc : c ∈ entryCandidates e)
    (hm : ((if patterns ≠ [] then patterns else defaultGlobalWatchPatterns).any
        (fun p => globTest p (stripDotSlash (normalizePathStr c))) = true) ∨
      joinPath repoRoot (stripDotSlash (normalizePathStr c)) ∈ closureAbs) :
    (evaluateGlobalWatch repoRoot entries patterns closureAbs).matchedPaths ≠ [] := by
  have hmem : stripDotSlash (normalizePathStr c) ∈
      (evaluateGlobalWatch repoRoot entries patterns closureAbs).matchedPaths := by
    unfold evaluateGlobalWatch
    dsimp only
    rw [mem_insSort, mem_dedupKeepFirst, List.mem_flatMap]
    refine ⟨e, he, ?_⟩
    rw [List.mem_filterMap]
    refine ⟨c, hc, ?_⟩
    dsimp only
    rw [if_pos ?hcond]
    case hcond =>
      rcases hm with hl | hr
      · rw [hl, Bool.true_or]
      · rw [decide_eq_true hr, Bool.or_true]
  exact List.ne_nil_of_mem hmem

theorem globalWatchPatternsOf_ne_nil (cfg : AnalyzeConfig) :
    globalWatchPatternsOf cfg ≠ [] := by
  unfold globalWatchPatternsOf
  split_ifs with h
  · exact h
  · decide

/-- C1 (amended): with global-watch mode not "disabled", if some candidate path
of a changed entry matches a configured watch pattern or lies in the watch
closure, the run selects exactly the spec files under the tests root,
each with reason `global-watch-force-all`, sets `forcedAllSpecs`, and zeroes
the semantic, propagation and Stage B statistics — but `stageASelectedCount`
is not zeroed: it is set to the number of selected specs. -/
theorem c1_force_all_selection (cfg : AnalyzeConfig) (world : AnalyzeWorld) (b : String)
    (hmode : globalWatchModeOf cfg ≠ "disabled")
    (e : Entry) (he : e ∈ (cerOf cfg world).entries) (c : String)
    (hc : c ∈ entryCandidates e)
    (hm : ((globalWatchPatternsOf cfg).any
        (fun p => globTest p (stripDotSlash (normalizePathStr c))) = true) ∨
      joinPath cfg.repoRoot (stripDotSlash (normalizePathStr c)) ∈ world.watchClosureAbs) :
    (analyzeCoreWithBias cfg world b).selectedSpecs =
      insSort sLe (world.testsRootFiles.filter
        (fun f => (effectiveExtensionsOf cfg).any
          (fun ext => strEndsWith f (".spec" ++ ext)))) ∧
    (analyzeCoreWithBias cfg world b).selectionReasons =
      (analyzeCoreWithBias cfg world b).selectedSpecs.map
        (fun p => (p, "global-watch-force-all")) ∧
    (analyzeCoreWithBias cfg world b).forcedAllSpecs = true ∧
    (analyzeCoreWithBias cfg world b).semanticStats = emptySemanticStats ∧
    (analyzeCoreWithBias cfg world b).propagationStats = ⟨0⟩ ∧
    (analyzeCoreWithBias cfg world b).droppedByMethodFilter = 0 ∧
    (analyzeCoreWithBias cfg world b).retainedWithoutMethodFilter = 0 ∧
    (analyzeCoreWithBias cfg world b).uncertainCallSites = 0 ∧
    (analyzeCoreWithBias cfg world b).stageASelectedCount =
      (analyzeCoreWithBias cfg world b).selectedSpecs.length := by
  have hmp : (globalWatchOf cfg world).matchedPaths ≠ [] := by
    unfold globalWatchOf
    rw [if_neg hmode]
    refine evaluateGlobalWatch_matched_nonempty _ _ _ _ e he c hc ?_
    rw [if_pos (globalWatchPatternsOf_ne_nil cfg)]
    exact hm
  have hsel : analyzeCoreWithBias cfg world b = forceAllResult cfg world
      (effectiveExtensionsOf cfg) (cerOf cfg world) (changedPomEntriesOf cfg world)
      (directChangedSpecFilesOf cfg world) (globalWatchOf cfg world) := by
    unfold analyzeCoreWithBias
    rw [if_pos ⟨hmode, hmp⟩]
  rw [hsel]
  unfold forceAllResult
  exact ⟨rfl, rfl, rfl, rfl, rfl, rfl, rfl, rfl, rfl⟩

/-- A profile with defaulted watch mode and patterns, tests under `tests/`. -/
def profC1 : Profile :=
  { testsRootRelative := "tests"
    changedSpecPrefix := "tests/"
    isRelevantPomPath := fun p => strStartsWith p "src/"
    globalWatchPatterns := []
    globalWatchMode := "" }

def cfgC1 : AnalyzeConfig :=
  { repoRoot := "repo"
    baseRef := some "main"
    profile := profC1
    includeUntrackedSpecs := false
    includeWorkingTreeWithBase := false
    fileExtensions := []
    selectionBias := "fail-open" }

/-- A modified source file under the default watch pattern `src/fixtures/**`. -/
def entryC1 : Entry := ⟨"M", none, some "src/fixtures/a.ts", "src/fixtures/a.ts", "M"⟩

def worldC1 : AnalyzeWorld :=
  { baseHeadDiff := [entryC1]
    workingTreeDiff := []
    untrackedRaw := []
    testsRootFiles := ["repo/tests/a.spec.ts"]
    watchClosureAbs := []
    readChange := fun _ => (none, none)
    impactedClassesOf := fun _ => []
    propagate := fun _ _ => ⟨[], ⟨0⟩, []⟩
    classToFixtureKeys := []
    fixtureKeyToClass := []
    stageASelect := fun _ => []
    importSelect := fun _ => []
    readSpec := fun _ => none }

/-- C1 counterexample to the literal claim: in a force-all run the Stage A
statistic is not zeroed — `stageASelectedCount` equals the number of selected
specs (here 1). -/
theorem c1_stageA_not_zeroed_counterexample :
    (analyzeCore cfgC1 worldC1).forcedAllSpecs = true ∧
    (analyzeCore cfgC1 worldC1).stageASelectedCount = 1 ∧
    (analyzeCore cfgC1 worldC1).stageASelectedCount ≠ 0 := by decide

theorem c1_force_all_selection_witness :
    (analyzeCoreWithBias cfgC1 worldC1 "fail-open").forcedAllSpecs = true ∧
    (analyzeCoreWithBias cfgC1 worldC1 "fail-open").stageASelectedCount =
      (analyzeCoreWithBias cfgC1 worldC1 "fail-open").selectedSpecs.length := by
  have h := c1_force_all_selection cfgC1 worldC1 "fail-open" (by decide) entryC1
    (by decide) "src/fixtures/a.ts" (by decide) (Or.inl (by decide))
  exact ⟨h.2.2.1, h.2.2.2.2.2.2.2.2⟩

/-! ### C9 support: retention of directly-changed specs -/

theorem noImpactStep_direct (direct always : List String)
    (st : Nat × List (String × String)) (p : String) (hd : p ∈ direct) :
    alookup (noImpactStep direct always st p).2 p = some "direct-changed-spec" := by
  unfold noImpactStep
  rw [if_pos hd]
  exact alookup_aset_self _ _ _

theorem noImpactStep_preserve (direct always : List String)
    (st : Nat × List (String × String)) (q p : String) (hne : p ≠ q)
    (h : alookup st.2 p = some "direct-changed-spec") :
    alookup (noImpactStep direct always st q).2 p = some "direct-changed-spec" := by
  unfold noImpactStep
  split_ifs <;> dsimp only <;> rw [alookup_aset_ne _ _ _ _ hne] <;> exact h

theorem foldl_noImpactStep_reason (direct always : List String) (p : String)
    (hd : p ∈ direct) :
    ∀ (l : List String) (st : Nat × List (String × String)),
      (p ∈ l ∨ alookup st.2 p = some "direct-changed-spec") →
      alookup (l.foldl (noImpactStep direct always) st).2 p =
        some "direct-changed-spec" := by
  intro l
  induction l with
  | nil =>
    intro st h
    rcases h with h | h
    · exact absurd h (List.not_mem_nil p)
    · exact h
  | cons q rest ih =>
    intro st h
    rw [List.foldl_cons]
    by_cases hpq : p = q
    · subst hpq
      exact ih _ (Or.inr (noImpactStep_direct direct always st p hd))
    · rcases h with h | h
      · rcases List.mem_cons.mp h with h0 | h0
        · exact absurd h0 hpq
        · exact ih _ (Or.inl h0)
      · exact ih _ (Or.inr (noImpactStep_preserve direct always st q p hpq h))

theorem filterStep_direct (direct always : List String) (fkc : List (String × String))
    (fk : List String) (imp : List (String × List String)) (b : String)
    (readSpec : String → Option Node) (st : FilterState) (p : String) (hd : p ∈ direct) :
    p ∈ (filterStep direct always fkc fk imp b readSpec st p).filtered ∧
    alookup (filterStep direct always fkc fk imp b readSpec st p).reasons p =
      some "direct-changed-spec" := by
  unfold filterStep
  rw [if_pos hd]
  exact ⟨by simp, alookup_aset_self _ _ _⟩

theorem filterStep_direct_preserve (direct always : List String)
    (fkc : List (String × String)) (fk : List String)
    (imp : List (String × List String)) (b : String) (readSpec : String → Option Node)
    (st : FilterState) (q p : String) (hne : p ≠ q)
    (h1 : p ∈ st.filtered) (h2 : alookup st.reasons p = some "direct-changed-spec") :
    p ∈ (filterStep direct always fkc fk imp b readSpec st q).filtered ∧
    alookup (filterStep direct always fkc fk imp b readSpec st q).reasons p =
      some "direct-changed-spec" := by
  unfold filterStep
  by_cases hq1 : q ∈ direct
  · rw [if_pos hq1]
    exact ⟨List.mem_append_left _ h1, by rw [alookup_aset_ne _ _ _ _ hne]; exact h2⟩
  · rw [if_neg hq1]
    by_cases hq2 : q ∈ always
    · rw [if_pos hq2]
      exact ⟨List.mem_append_left _ h1, by rw [alookup_aset_ne _ _ _ _ hne]; exact h2⟩
    · rw [if_neg hq2]
      cases hr : readSpec q with
      | none =>
        dsimp only
        exact ⟨List.mem_append_left _ h1, by rw [alookup_aset_ne _ _ _ _ hne]; exact h2⟩
      | some ast =>
        dsimp only
        by_cases h3 : extractFixtureVariablesFromSpecAst ast fkc fk = []
        · rw [if_pos h3]
          exact ⟨List.mem_append_left _ h1, by rw [alookup_aset_ne _ _ _ _ hne]; exact h2⟩
        · rw [if_neg h3]
          by_cases h4 : (collectImpactedMethodMatchesInSpec ast
              (extractFixtureVariablesFromSpecAst ast fkc fk) imp b).preciseMatches ≠ []
          · rw [if_pos h4]
            exact ⟨List.mem_append_left _ h1,
              by rw [alookup_aset_ne _ _ _ _ hne]; exact h2⟩
          · rw [if_neg h4]
            by_cases h5 : (collectImpactedMethodMatchesInSpec ast
                (extractFixtureVariablesFromSpecAst ast fkc fk) imp
                b).shouldIncludeByUncertain = true
            · rw [if_pos h5]
              exact ⟨List.mem_append_left _ h1,
                by rw [alookup_aset_ne _ _ _ _ hne]; exact h2⟩
            · rw [if_neg h5]
              exact ⟨h1, h2⟩

theorem foldl_filterStep_direct (direct always : List String)
    (fkc : List (String × String)) (fk : List String)
    (imp : List (String × List String)) (b : String) (readSpec : String → Option Node)
    (p : String) (hd : p ∈ direct) :
    ∀ (l : List String) (st : FilterState),
      (p ∈ l ∨ (p ∈ st.filtered ∧ alookup st.reasons p = some "direct-changed-spec")) →
      p ∈ (l.foldl (filterStep direct always fkc fk imp b readSpec) st).filtered ∧
      alookup (l.foldl (filterStep direct always fkc fk imp b readSpec) st).reasons p =
        some "direct-changed-spec" := by
  intro l
  induction l with
  | nil =>
    intro st h
    rcases h with h | h
    · exact absurd h (List.not_mem_nil p)
    · exact h
  | cons q rest ih =>
    intro st h
    rw [List.foldl_cons]
    by_cases hpq : p = q
    · subst hpq
      exact ih _ (Or.inr (filterStep_direct direct always fkc fk imp b readSpec st p hd))
    · rcases h with h | h
      · rcases List.mem_cons.mp h with h0 | h0
        · exact absurd h0 hpq
        · exact ih _ (Or.inl h0)
      · exact ih _ (Or.inr (filterStep_direct_preserve direct always fkc fk imp b
          readSpec st q p hpq h.1 h.2))

theorem filterSpecs_direct_retained (selected direct always : List String)
    (fkc : List (String × String)) (fk : List String)
    (imp : List (String × List String)) (b : String) (readSpec : String → Option Node)
    (p : String) (hd : p ∈ direct) (hs : p ∈ selected) :
    p ∈ (filterSpecsByImpactedMethods selected direct always fkc fk imp
        b readSpec).filteredSpecs ∧
    alookup (filterSpecsByImpactedMethods selected direct always fkc fk imp
        b readSpec).selectionReasons p = some "direct-changed-spec" := by
  unfold filterSpecsByImpactedMethods
  split_ifs with h1 h2
  · exact absurd (h1 ▸ hs) (List.not_mem_nil p)
  · exact ⟨hs, foldl_noImpactStep_reason direct always p hd selected (0, []) (Or.inl hs)⟩
  · have h := foldl_filterStep_direct direct always fkc fk imp b readSpec p hd
      selected ⟨[], 0, 0, [], 0, []⟩ (Or.inl hs)
    exact ⟨(mem_insSort _ _ _).mpr h.1, h.2⟩

/-- C9 (amended): in every run that is not a global-watch force-all run, every
directly-changed spec file appears (as an absolute path) in the selected output
with reason `direct-changed-spec`, regardless of the selection bias. In a
force-all run the reason is `global-watch-force-all` instead. -/
theorem c9_direct_spec_retained (cfg : AnalyzeConfig) (world : AnalyzeWorld) (b : String)
    (hforced : (analyzeCoreWithBias cfg world b).forcedAllSpecs = false)
    (p : String) (hp : p ∈ (analyzeCoreWithBias cfg world b).directChangedSpecFiles) :
    joinPath cfg.repoRoot p ∈ (analyzeCoreWithBias cfg world b).selectedSpecs ∧
    alookup (analyzeCoreWithBias cfg world b).selectionReasons (joinPath cfg.repoRoot p) =
      some "direct-changed-spec" := by
  unfold analyzeCoreWithBias at hforced hp ⊢
  split_ifs at hforced hp ⊢ with h1 h2
  · simp only [forceAllResult] at hforced
    exact absurd hforced (by decide)
  · simp only [fastExitResult] at hp
    rw [h2.2] at hp
    exact absurd hp (List.not_mem_nil p)
  · simp only [mainResult] at hp ⊢
    have hd : joinPath cfg.repoRoot p ∈
        (directChangedSpecFilesOf cfg world).map (joinPath cfg.repoRoot) :=
      List.mem_map_of_mem _ hp
    have hs : joinPath cfg.repoRoot p ∈ insSort sLe (dedupKeepFirst
        ((runSemanticBlock world (changedPomEntriesOf cfg world)).stageASpecs ++
          (directChangedSpecFilesOf cfg world).map (joinPath cfg.repoRoot) ++
          (if changedPomEntriesOf cfg world ≠ [] then
            world.importSelect (changedPomEntriesOf cfg world) else []))) := by
      rw [mem_insSort, mem_dedupKeepFirst]
      exact List.mem_append_left _ (List.mem_append_right _ hd)
    exact filterSpecs_direct_retained _ _ _ _ _ _ _ _ _ hd hs

/-- A directly-changed spec file under the `tests/` prefix. -/
def entryC9 : Entry := ⟨"M", none, some "tests/b.spec.ts", "tests/b.spec.ts", "M"⟩

/-- A force-all run that also has a directly-changed spec. -/
def worldC9 : AnalyzeWorld :=
  { worldC1 with
    baseHeadDiff := [entryC1, entryC9]
    testsRootFiles := ["repo/tests/a.spec.ts", "repo/tests/b.spec.ts"] }

/-- C9 counterexample to the literal claim: in a force-all run the
directly-changed spec `tests/b.spec.ts` is selected with reason
`global-watch-force-all`, not `direct-changed-spec`. -/
theorem c9_force_all_reason_counterexample :
    "tests/b.spec.ts" ∈ (analyzeCore cfgC1 worldC9).directChangedSpecFiles ∧
    alookup (analyzeCore cfgC1 worldC9).selectionReasons "repo/tests/b.spec.ts" =
      some "global-watch-force-all" ∧
    alookup (analyzeCore cfgC1 worldC9).selectionReasons "repo/tests/b.spec.ts" ≠
      some "direct-changed-spec" := by decide

/-- Same profile as `profC1` but with the global watch disabled. -/
def cfgC9 : AnalyzeConfig :=
  { cfgC1 with profile := { profC1 with globalWatchMode := "disabled" } }

def worldC9b : AnalyzeWorld :=
  { worldC1 with
    baseHeadDiff := [entryC9]
    testsRootFiles := ["repo/tests/a.spec.ts", "repo/tests/b.spec.ts"] }

theorem c9_direct_spec_retained_witness :
    joinPath cfgC9.repoRoot "tests/b.spec.ts" ∈
      (analyzeCoreWithBias cfgC9 worldC9b "fail-closed").selectedSpecs ∧
    alookup (analyzeCoreWithBias cfgC9 worldC9b "fail-closed").selectionReasons
      (joinPath cfgC9.repoRoot "tests/b.spec.ts") = some "direct-changed-spec" :=
  c9_direct_spec_retained cfgC9 worldC9b "fail-closed" (by decide)
    "tests/b.spec.ts" (by decide)
